import Mathlib

/-!
# Snake (ncurses): the game-state transition function

A shallow embedding of the game core of `src/snake.c`: the helper functions
`min`/`max`, the grid codec (`cell`, `cellX`, `cellY`, `cellDir`,
`mapCellDirection`), apple placement (`GameState_spawnApple`), the initializer
(`GameState_init`) and the transition function (`GameState_step`).

Modelling conventions.

* C `int` values are integers (`Int`).  The C operators `/` and `%` truncate
  towards zero, hence `Int.tdiv` and `Int.tmod`; `&` and `|` are
  `Int.land` and `Int.lor` (two's complement).
* An enumeration that the code only compares (`GameStatus`, `Input`) is an
  inductive type; `CellType` and `CellDirection`, whose values are packed into
  cells with `|` and unpacked with `&`, stay integers.
* The board is a list of cells.  A read or write at an index outside
  `0 .. Board_size - 1` has no defined behaviour in C and yields `none`; so
  does a signed overflow of `applesEaten` or `snakeSpeed`.
* `rand()` is a list of sample pairs consumed from the front: one pair per
  iteration of the retry loop of `GameState_spawnApple`, the first component
  being the sample reduced modulo `Board_width`, the second the one reduced
  modulo `Board_height`.  A loop that uses up the list without finding a cell
  yields `none`.  Every function that draws samples returns the unused rest.
-/

namespace Snake

/-! ## Helper functions -/

/-- The function `min` of the source: `a < b ? a : b`. -/
def min (a b : Int) : Int := if a < b then a else b

/-- The function `max` of the source: `a > b ? a : b`. -/
def max (a b : Int) : Int := if a > b then a else b

/-! ## Data structures -/

def Board_width : Int := 20
def Board_height : Int := 20
def Board_size : Int := Board_width * Board_height

def CellType_empty : Int := 0x00
def CellType_apple : Int := 0x04
def CellType_snake : Int := 0x08
def CellType_mask : Int := 0x0C

def CellDirection_up : Int := 0
def CellDirection_left : Int := 1
def CellDirection_down : Int := 2
def CellDirection_right : Int := 3
def CellDirection_count : Int := 4
def CellDirection_mask : Int := 0x03

def INT_MAX : Int := 2147483647
def INT_MIN : Int := -2147483648

inductive GameStatus where
  | exit
  | running
  | over
deriving DecidableEq

inductive Input where
  | none
  | up
  | left
  | down
  | right
  | quit
deriving DecidableEq

structure GameState where
  status : GameStatus
  board : List Int
  head : Int
  tail : Int
  applesEaten : Int
  snakeSpeed : Int
deriving DecidableEq

/-- The random source: one pair of `rand()` results per retry of apple placement. -/
abbrev Samples := List (Nat × Nat)

/-! ## Memory and arithmetic primitives -/

/-- The read `board[i]`: defined for `0 ≤ i < Board_size` only. -/
def rd (b : List Int) (i : Int) : Option Int :=
  if i < 0 ∨ Board_size ≤ i then Option.none else b[i.toNat]?

/-- The write `board[i] = v`: defined for `0 ≤ i < Board_size` only. -/
def wr (b : List Int) (i : Int) (v : Int) : Option (List Int) :=
  if i < 0 ∨ Board_size ≤ i then Option.none else some (b.set i.toNat v)

/-- Signed addition of two `int`s; an overflow has no defined result. -/
def addInt (a b : Int) : Option Int :=
  if INT_MIN ≤ a + b ∧ a + b ≤ INT_MAX then some (a + b) else Option.none

/-! ## Functions (game state) -/

def cell (x y : Int) : Int := Board_width * y + x

def cellX (c : Int) : Int := c.tmod Board_width

def cellY (c : Int) : Int := c.tdiv Board_width

def cellDir (c : Int) (dir : Int) : Int :=
  let x := cellX c
  let y := cellY c
  if dir = CellDirection_up then cell x (max (y - 1) 0)
  else if dir = CellDirection_left then cell (max (x - 1) 0) y
  else if dir = CellDirection_down then cell x (min (y + 1) (Board_height - 1))
  else if dir = CellDirection_right then cell (min (x + 1) (Board_width - 1)) y
  else cell x y

def mapCellDirection (input : Input) : Int :=
  match input with
  | .up => CellDirection_up
  | .down => CellDirection_down
  | .left => CellDirection_left
  | .right => CellDirection_right
  | _ => CellDirection_up

/-- The retry loop of apple placement: each iteration draws one pair of samples,
and the loop ends at the first drawn cell that equals `CellType_empty`. -/
def GameState_spawnApple : Samples → GameState → Option (GameState × Samples)
  | [], _ => Option.none
  | (a, b) :: rest, gs =>
    let new_pos := cell ((a : Int).tmod Board_width) ((b : Int).tmod Board_height)
    match rd gs.board new_pos with
    | Option.none => Option.none
    | some v =>
      if v ≠ CellType_empty then GameState_spawnApple rest gs
      else
        match wr gs.board new_pos CellType_apple with
        | Option.none => Option.none
        | some b1 => some ({ gs with board := b1 }, rest)

/-- The loop `for (i = lo; i <= head; i++) board[i] = v` of the initializer,
with `n` the number of iterations left. -/
def fillFrom (v : Int) : Nat → Int → List Int → Option (List Int)
  | 0, _, b => some b
  | n + 1, i, b =>
    match wr b i v with
    | Option.none => Option.none
    | some b1 => fillFrom v n (i + 1) b1

def GameState_init (rnd : Samples) (gs : GameState) : Option (GameState × Samples) :=
  let head := cell (Board_width.tdiv 2) (Board_height.tdiv 2)
  let gs1 : GameState :=
    { gs with
      status := GameStatus.running
      board := List.replicate Board_size.toNat CellType_empty
      head := head
      tail := head - 2
      applesEaten := 0
      snakeSpeed := 850 }
  match GameState_spawnApple rnd gs1 with
  | Option.none => Option.none
  | some (gs2, rest) =>
    match fillFrom (Int.lor CellType_snake CellDirection_right)
        (gs2.head + 1 - gs2.tail).toNat gs2.tail gs2.board with
    | Option.none => Option.none
    | some b1 => some ({ gs2 with board := b1 }, rest)

/-- The part of the running tick after the input switch: the head advances in
direction `headDir`, then the switch on the kind of the cell entered. -/
def advance (rnd : Samples) (cur_gs : GameState) (headDir : Int) :
    Option (GameState × Samples) :=
  match wr cur_gs.board cur_gs.head (Int.lor CellType_snake headDir) with
  | Option.none => Option.none
  | some b1 =>
    let nextHeadCell := cellDir cur_gs.head headDir
    match rd cur_gs.board nextHeadCell with
    | Option.none => Option.none
    | some nc =>
      let nextCellType := Int.land nc CellType_mask
      match wr b1 nextHeadCell (Int.lor CellType_snake headDir) with
      | Option.none => Option.none
      | some b2 =>
        let new_gs : GameState := { cur_gs with board := b2, head := nextHeadCell }
        if nextCellType = CellType_snake then
          some ({ new_gs with status := GameStatus.over }, rnd)
        else if nextCellType = CellType_empty then
          match wr new_gs.board cur_gs.tail CellType_empty with
          | Option.none => Option.none
          | some b3 =>
            match rd cur_gs.board cur_gs.tail with
            | Option.none => Option.none
            | some tc =>
              let tailDir := Int.land tc CellDirection_mask
              some ({ new_gs with board := b3, tail := cellDir cur_gs.tail tailDir }, rnd)
        else if nextCellType = CellType_apple then
          match addInt new_gs.applesEaten 1 with
          | Option.none => Option.none
          | some ae =>
            match addInt 850 ae with
            | Option.none => Option.none
            | some sp =>
              GameState_spawnApple rnd { new_gs with applesEaten := ae, snakeSpeed := sp }
        else some (new_gs, rnd)

def GameState_step (rnd : Samples) (input : Input) (cur_gs : GameState) :
    Option (GameState × Samples) :=
  let new_gs := cur_gs
  match cur_gs.status with
  | .exit => some (new_gs, rnd)
  | .over =>
    match input with
    | .quit => some ({ new_gs with status := GameStatus.exit }, rnd)
    | .none => some (new_gs, rnd)
    | _ => GameState_init rnd new_gs
  | .running =>
    match rd cur_gs.board cur_gs.head with
    | Option.none => Option.none
    | some hc =>
      let headDir := Int.land hc CellDirection_mask
      match input with
      | .quit => some ({ new_gs with status := GameStatus.exit }, rnd)
      | .none => advance rnd cur_gs headDir
      | _ =>
        let userDir := mapCellDirection input
        if headDir.tmod 2 ≠ userDir.tmod 2 then advance rnd cur_gs userDir
        else some (new_gs, rnd)

/-! ## The path traced by the snake, and cell counts -/

/-- The occupancy kind of a cell value: `value & CellType_mask`. -/
def kindOf (v : Int) : Int := Int.land v CellType_mask

/-- The direction bits of a cell value: `value & CellDirection_mask`. -/
def dirOf (v : Int) : Int := Int.land v CellDirection_mask

/-- Number of cells of the board whose occupancy kind is `k`. -/
def countKind (b : List Int) (k : Int) : Nat :=
  b.countP (fun v => decide (kindOf v = k))

/-- One step along the stored directions: from cell `c` to the neighbour in the
direction stored in `board[c]`. -/
def follow (b : List Int) (c : Int) : Option Int :=
  (rd b c).map (fun v => cellDir c (dirOf v))

/-- The cell reached from `c` after `k` steps along the stored directions. -/
def trace (b : List Int) (c : Int) : Nat → Option Int
  | 0 => some c
  | k + 1 => (trace b c k).bind (follow b)

/-- States reachable from the initializer by the transition function, for any
inputs and any random samples. -/
inductive Reachable : GameState → Prop where
  | init (rnd : Samples) (gs s : GameState) (rest : Samples) :
      GameState_init rnd gs = some (s, rest) → Reachable s
  | step (rnd : Samples) (input : Input) (s t : GameState) (rest : Samples) :
      Reachable s → GameState_step rnd input s = some (t, rest) → Reachable t

/-- The directional inputs. -/
def Input.isDir (i : Input) : Bool :=
  match i with
  | .up | .left | .down | .right => true
  | _ => false

/-- The cell drawn by one iteration of apple placement from the samples `a`, `b`. -/
def applePos (a b : Nat) : Int :=
  cell ((a : Int).tmod Board_width) ((b : Int).tmod Board_height)

/-- The board the initializer builds when apple placement draws `a`, `b`: the
apple first, then the three snake cells written over it. -/
def initBoard (a b : Nat) : List Int :=
  (((((List.replicate Board_size.toNat CellType_empty).set (applePos a b).toNat
    CellType_apple).set 208 11).set 209 11).set 210 11)

/-- The state the initializer returns when apple placement draws `a`, `b`. -/
def initState (a b : Nat) : GameState :=
  { status := GameStatus.running
    board := initBoard a b
    head := 210
    tail := 208
    applesEaten := 0
    snakeSpeed := 850 }

/-- A game-over state used as a concrete instance: the initial position with
status Over. -/
def overState : GameState := { initState 5 5 with status := GameStatus.over }

/-- The inputs that make the snake advance from a Running state whose head cell
holds `hc`, with the direction `d` of the advance: `None`, in the stored
direction, or a directional input perpendicular to the stored direction, in the
input's direction. -/
def Advances (input : Input) (hc d : Int) : Prop :=
  (input = Input.none ∧ d = dirOf hc) ∨
  (input.isDir = true ∧ d = mapCellDirection input ∧ d % 2 ≠ dirOf hc % 2)

/-- A Running state in which the head is about to eat: the initial position
with the apple at cell 211, directly in front of the head. -/
def appleAhead : GameState := initState 11 10

/-- A Running state whose tail index points at the Empty cell in front of the
head: the initial position with `tail = 211`. -/
def tailAhead : GameState := { initState 5 5 with tail := 211 }

/-- The state `GameState_step` returns from `tailAhead` on input `None`. -/
def tailAheadNext : GameState :=
  { status := GameStatus.running
    board := (((initBoard 5 5).set 210 11).set 211 11).set 211 0
    head := 211
    tail := 191
    applesEaten := 0
    snakeSpeed := 850 }

/-- A Running state whose head has reached the right edge: cells 217, 218 and
219 hold the snake, heading Right. -/
def atRightEdge : GameState :=
  { status := GameStatus.running
    board := (((List.replicate Board_size.toNat CellType_empty).set 217 11).set 218 11).set
      219 11
    head := 219
    tail := 217
    applesEaten := 0
    snakeSpeed := 850 }

/-- A four-segment snake turned back on itself: the path 218 (Down), 238
(Right), 239 (Up), 219 (head, Up); a turn to the Left enters the tail cell. -/
def coiled : GameState :=
  { status := GameStatus.running
    board := ((((List.replicate Board_size.toNat CellType_empty).set 218 10).set 238 11).set
      239 8).set 219 8
    head := 219
    tail := 218
    applesEaten := 1
    snakeSpeed := 851 }

/-- The board invariant: the cells of kind SnakeBody are exactly the cells of
the list `p`, which starts at the tail, ends at the head, repeats no cell, and
in which each cell's stored direction leads to the next cell of the list. -/
structure PathInv (b : List Int) (tl hd : Int) (p : List Int) : Prop where
  size : b.length = 400
  two_le : 2 ≤ p.length
  nodup : p.Nodup
  first : p.head? = some tl
  last : p.getLast? = some hd
  chain : List.Chain' (fun a c => follow b a = some c) p
  inside : ∀ i ∈ p, 0 ≤ i ∧ i < 400
  snake : ∀ i v, rd b i = some v → (kindOf v = CellType_snake ↔ i ∈ p)
  count : countKind b CellType_snake = p.length

/-- The board edge a direction points at: row 0 for Up, column 0 for Left,
row 19 for Down, column 19 for Right. -/
def onEdge (c d : Int) : Prop :=
  (d = CellDirection_up ∧ cellY c = 0) ∨ (d = CellDirection_left ∧ cellX c = 0) ∨
  (d = CellDirection_down ∧ cellY c = Board_height - 1) ∨
  (d = CellDirection_right ∧ cellX c = Board_width - 1)

/-- The neighbour with edge clamping, as the specification words it: the
coordinates of the neighbour of `(x, y)` in direction `d`. -/
def clampedNeighbour (x y d : Int) : Int × Int :=
  if d = CellDirection_up then (x, Max.max (y - 1) 0)
  else if d = CellDirection_left then (Max.max (x - 1) 0, y)
  else if d = CellDirection_down then (x, Min.min (y + 1) 19)
  else (Min.min (x + 1) 19, y)

/-- The state `t` is reached from `s` by a finite sequence of calls of
`GameState_step`, with any inputs and any samples. -/
inductive StepsTo (s : GameState) : GameState → Prop where
  | refl : StepsTo s s
  | step (rnd : Samples) (input : Input) (t u : GameState) (rest : Samples) :
      StepsTo s t → GameState_step rnd input t = some (u, rest) → StepsTo s u

/-- An Exited state used as a concrete instance: the initial position with
status Exited. -/
def exitedState : GameState := { initState 5 5 with status := GameStatus.exit }

/-- The first sampled cell whose value satisfies `P`, the samples being reduced
to cells as apple placement does. -/
def firstSampled (P : Int → Prop) [DecidablePred P] (b : List Int) : Samples → Option Int
  | [] => Option.none
  | (a, c) :: rest =>
    match rd b (applePos a c) with
    | Option.none => Option.none
    | some v => if P v then some (applePos a c) else firstSampled P b rest

/-- A Running state whose cell 0 has occupancy kind Empty and direction bits 1:
the initial position with `board[0] = 1`. -/
def dirtyState : GameState := { initState 5 5 with board := (initBoard 5 5).set 0 1 }

/-- The state apple placement returns from `dirtyState` on the samples
`(0, 0)`, `(1, 0)`: the apple is at cell 1. -/
def dirtyNext : GameState := { dirtyState with board := dirtyState.board.set 1 4 }

/-- The well-formed cell values: `CellType_empty`, `CellType_apple`, or
`CellType_snake | d` with `d` one of the four directions. -/
def CellOK (v : Int) : Prop :=
  v = CellType_empty ∨ v = CellType_apple ∨
  ∃ d : Int, 0 ≤ d ∧ d ≤ 3 ∧ v = Int.lor CellType_snake d

/-- The state reached from the initial position `initState 5 5` by one step on
input `None`: the snake has moved one cell to the Right. -/
def afterOneStep : GameState :=
  { status := GameStatus.running
    board := (((initBoard 5 5).set 210 11).set 211 11).set 208 0
    head := 211
    tail := 209
    applesEaten := 0
    snakeSpeed := 850 }

/-- A board filled by the snake but for one apple: the snake runs along row 0
to the right, down, along row 1 to the left, down, and so on; cell 380, the last
cell of row 19, holds the apple. -/
def fullCell (i : Nat) : Int :=
  if i = 380 then CellType_apple
  else if (i / 20) % 2 = 0 then (if i % 20 = 19 then 10 else 11)
  else (if i % 20 = 0 then 10 else 9)

/-- The board of `fullState`. -/
def fullBoard : List Int := (List.range 400).map fullCell

/-- A Running state one step before the snake fills the board: 399 segments
from the tail at cell 0 to the head at cell 381, heading Left towards the apple
at cell 380. -/
def fullState : GameState :=
  { status := GameStatus.running
    board := fullBoard
    head := 381
    tail := 0
    applesEaten := 396
    snakeSpeed := 1246 }

/-- The cells visited from `c` in `n` steps along the stored directions,
starting with `c` itself. -/
def walk (b : List Int) : Nat → Int → List Int
  | 0, _ => []
  | n + 1, c =>
    c :: (match follow b c with
      | Option.none => []
      | some c1 => walk b n c1)

/-- The cell at position `j` of the path of `fullBoard`: rows with an even
number are run to the right, the others to the left. -/
def pathCell (j : Nat) : Nat :=
  if (j / 20) % 2 = 0 then 20 * (j / 20) + j % 20 else 20 * (j / 20) + (19 - j % 20)

/-- The path of the snake of `fullState`, from the tail to the head. -/
def fullPath : List Int := (List.range 399).map (fun j => (pathCell j : Int))

/-! ## Basic facts -/

theorem Board_size_eq : Board_size = 400 := by decide

theorem rd_bounds {b : List Int} {i v : Int} (h : rd b i = some v) :
    0 ≤ i ∧ i < 400 ∧ i.toNat < b.length := by
  unfold rd at h
  rw [Board_size_eq] at h
  split at h
  · cases h
  · rename_i hi
    refine ⟨by omega, by omega, ?_⟩
    by_contra hc
    rw [List.getElem?_eq_none (by omega)] at h
    cases h

theorem rd_eq_some {b : List Int} {i : Int} (hl : b.length = 400) (h0 : 0 ≤ i)
    (h1 : i < 400) : ∃ v, rd b i = some v := by
  have hlt : i.toNat < b.length := by omega
  refine ⟨b[i.toNat], ?_⟩
  unfold rd
  rw [Board_size_eq, if_neg (by omega)]
  exact List.getElem?_eq_getElem hlt

theorem wr_eq (b : List Int) {i : Int} (v : Int) (h0 : 0 ≤ i) (h1 : i < 400) :
    wr b i v = some (b.set i.toNat v) := by
  unfold wr
  rw [Board_size_eq, if_neg (by omega)]

theorem rd_set_self {b : List Int} {i : Int} (v : Int) (hl : b.length = 400)
    (h0 : 0 ≤ i) (h1 : i < 400) : rd (b.set i.toNat v) i = some v := by
  unfold rd
  rw [Board_size_eq, if_neg (by omega)]
  have hlt : i.toNat < b.length := by omega
  simp [hlt]

theorem rd_set_ne (b : List Int) {i j : Int} (v : Int) (h0 : 0 ≤ i) (hne : i ≠ j) :
    rd (b.set i.toNat v) j = rd b j := by
  unfold rd
  split
  · rfl
  · rename_i hj
    have : i.toNat ≠ j.toNat := by omega
    simp [List.getElem?_set, this]

theorem cellDir_bounds {c : Int} (d : Int) (h0 : 0 ≤ c) (h1 : c < 400) :
    0 ≤ cellDir c d ∧ cellDir c d < 400 := by
  have hx : c.tmod 20 = c % 20 := Int.tmod_eq_emod h0 (by decide)
  have hy : c.tdiv 20 = c / 20 := Int.tdiv_eq_ediv h0 (by decide)
  simp only [cellDir, cell, cellX, cellY, Board_width, Board_height, Snake.min, Snake.max,
    CellDirection_up, CellDirection_left, CellDirection_down, CellDirection_right, hx, hy]
  split_ifs <;> omega

theorem kindOf_snake_lor {d : Int} (h0 : 0 ≤ d) (h1 : d ≤ 3) :
    kindOf (Int.lor CellType_snake d) = CellType_snake := by
  have : d = 0 ∨ d = 1 ∨ d = 2 ∨ d = 3 := by omega
  rcases this with h | h | h | h <;> subst h <;> decide

theorem dirOf_snake_lor {d : Int} (h0 : 0 ≤ d) (h1 : d ≤ 3) :
    dirOf (Int.lor CellType_snake d) = d := by
  have : d = 0 ∨ d = 1 ∨ d = 2 ∨ d = 3 := by omega
  rcases this with h | h | h | h <;> subst h <;> decide

theorem nat_ldiff_three_le (m : Nat) : Nat.ldiff 3 m ≤ 3 := by
  have h : Nat.ldiff 3 m < 2 ^ 2 := by
    apply Nat.lt_pow_two_of_testBit
    intro i hi
    rw [Nat.testBit_ldiff]
    have : Nat.testBit 3 i = false := by
      apply Nat.testBit_eq_false_of_lt
      calc 3 < 2 ^ 2 := by decide
        _ ≤ 2 ^ i := Nat.pow_le_pow_right (by decide) hi
    simp [this]
  omega

theorem dirOf_bounds (v : Int) : 0 ≤ dirOf v ∧ dirOf v ≤ 3 := by
  unfold dirOf CellDirection_mask
  cases v with
  | ofNat m =>
    show 0 ≤ ((m &&& 3 : Nat) : Int) ∧ ((m &&& 3 : Nat) : Int) ≤ 3
    have : m &&& 3 ≤ 3 := Nat.and_le_right
    omega
  | negSucc m =>
    show 0 ≤ ((Nat.ldiff 3 m : Nat) : Int) ∧ ((Nat.ldiff 3 m : Nat) : Int) ≤ 3
    have := nat_ldiff_three_le m
    omega

theorem mapCellDirection_bounds (input : Input) :
    0 ≤ mapCellDirection input ∧ mapCellDirection input ≤ 3 := by
  cases input <;> decide

theorem applePos_bounds (a b : Nat) : 0 ≤ applePos a b ∧ applePos a b < 400 := by
  have ha : (a : Int).tmod 20 = (a : Int) % 20 := Int.tmod_eq_emod (Int.ofNat_nonneg a) (by decide)
  have hb : (b : Int).tmod 20 = (b : Int) % 20 := Int.tmod_eq_emod (Int.ofNat_nonneg b) (by decide)
  simp only [applePos, cell, Board_width, Board_height, ha, hb]
  omega

theorem spawnApple_cons (a b : Nat) (rest : Samples) (gs : GameState) :
    GameState_spawnApple ((a, b) :: rest) gs =
      match rd gs.board (applePos a b) with
      | Option.none => Option.none
      | some v =>
        if v ≠ CellType_empty then GameState_spawnApple rest gs
        else some ({ gs with board := gs.board.set (applePos a b).toNat CellType_apple }, rest) := by
  have hb := applePos_bounds a b
  unfold applePos at hb ⊢
  simp only [GameState_spawnApple]
  rw [wr_eq _ _ hb.1 hb.2]

theorem emptyBoard_length : (List.replicate Board_size.toNat CellType_empty).length = 400 := by
  rw [List.length_replicate]
  decide

theorem rd_emptyBoard {i : Int} (h0 : 0 ≤ i) (h1 : i < 400) :
    rd (List.replicate Board_size.toNat CellType_empty) i = some CellType_empty := by
  unfold rd
  rw [Board_size_eq, if_neg (by omega), List.getElem?_replicate]
  have : Board_size.toNat = 400 := by decide
  rw [if_pos (by omega)]

theorem init_eq (a b : Nat) (rest : Samples) (gs : GameState) :
    GameState_init ((a, b) :: rest) gs = some (initState a b, rest) := by
  have hb := applePos_bounds a b
  have e2 : cell (Board_width.tdiv 2) (Board_height.tdiv 2) = 210 := by decide
  unfold GameState_init
  simp only [e2, spawnApple_cons, rd_emptyBoard hb.1 hb.2]
  have e3 : ((210 : Int) + 1 - (210 - 2)).toNat = 3 := by decide
  have e4 : Int.lor CellType_snake CellDirection_right = 11 := by decide
  have e5 : (210 : Int) - 2 = 208 := by decide
  simp only [ne_eq, not_true_eq_false, if_false, e3, e4, e5, fillFrom]
  rw [wr_eq _ _ (by decide) (by decide)]
  simp only []
  rw [wr_eq _ _ (by decide) (by decide)]
  simp only []
  rw [wr_eq _ _ (by decide) (by decide)]
  rfl

theorem rd_set_nat (b : List Int) (n : Nat) (v : Int) (j : Int) (hl : b.length = 400)
    (hn : n < 400) : rd (b.set n v) j = if j = (n : Int) then some v else rd b j := by
  unfold rd
  rw [Board_size_eq]
  by_cases hj : j < 0 ∨ 400 ≤ j
  · rw [if_pos hj, if_pos hj]
    rw [if_neg (by omega)]
  · rw [if_neg hj, if_neg hj, List.getElem?_set]
    by_cases hjn : j = (n : Int)
    · subst hjn
      simp [hl, hn]
    · have : n ≠ j.toNat := by omega
      simp [this, hjn]

theorem rd_set (b : List Int) {i : Int} (v : Int) (j : Int) (hl : b.length = 400)
    (h0 : 0 ≤ i) (h1 : i < 400) :
    rd (b.set i.toNat v) j = if j = i then some v else rd b j := by
  rw [rd_set_nat b i.toNat v j hl (by omega)]
  have : ((i.toNat : Nat) : Int) = i := Int.toNat_of_nonneg h0
  rw [this]

theorem rd_initBoard (a b : Nat) (j : Int) :
    rd (initBoard a b) j =
      if j = 210 ∨ j = 209 ∨ j = 208 then some 11
      else if j = applePos a b then some CellType_apple
      else rd (List.replicate Board_size.toNat CellType_empty) j := by
  have hb := applePos_bounds a b
  have hl := emptyBoard_length
  unfold initBoard
  rw [rd_set_nat _ 210 _ _ (by simp [hl]) (by decide),
    rd_set_nat _ 209 _ _ (by simp [hl]) (by decide),
    rd_set_nat _ 208 _ _ (by simp [hl]) (by decide),
    rd_set _ _ _ hl hb.1 hb.2]
  by_cases h1 : j = 210
  · simp [h1]
  by_cases h2 : j = 209
  · simp [h2]
  by_cases h3 : j = 208
  · simp [h3]
  simp [h1, h2, h3]

/-- C10. Initial / restart geometry: whatever pair of samples apple placement
draws first, `GameState_init` returns a state with status Running,
`applesEaten = 0`, `snakeSpeed = 850`, `head = cell 10 10 = 210`, `tail = 208`,
the cells 208, 209 and 210 all equal to `CellType_snake | CellDirection_right`,
and no other cell of kind SnakeBody; `GameState_step` on an Over state with a
directional input returns that same state. -/
theorem init_geometry (a b : Nat) (rest : Samples) (gs : GameState) :
    ∃ t, GameState_init ((a, b) :: rest) gs = some (t, rest) ∧
      (∀ (s : GameState) (input : Input), s.status = GameStatus.over → input.isDir = true →
        GameState_step ((a, b) :: rest) input s = some (t, rest)) ∧
      t.status = GameStatus.running ∧ t.applesEaten = 0 ∧ t.snakeSpeed = 850 ∧
      t.head = cell 10 10 ∧ t.head = 210 ∧ t.tail = 208 ∧
      t.board.length = 400 ∧
      rd t.board 208 = some (Int.lor CellType_snake CellDirection_right) ∧
      rd t.board 209 = some (Int.lor CellType_snake CellDirection_right) ∧
      rd t.board 210 = some (Int.lor CellType_snake CellDirection_right) ∧
      ∀ (i v : Int), rd t.board i = some v → kindOf v = CellType_snake →
        i = 208 ∨ i = 209 ∨ i = 210 := by
  have hc : (210 : Int) = cell 10 10 := by decide
  refine ⟨initState a b, init_eq a b rest gs, ?_, rfl, rfl, rfl, hc, rfl, rfl, ?_,
    ?_, ?_, ?_, ?_⟩
  · intro s input hs hd
    unfold GameState_step
    rw [hs]
    cases input <;> first | exact init_eq a b rest s | cases hd
  · simp only [initState, initBoard, List.length_set, emptyBoard_length]
  · show rd (initBoard a b) 208 = _
    rw [rd_initBoard]
    simp
    decide
  · show rd (initBoard a b) 209 = _
    rw [rd_initBoard]
    simp
    decide
  · show rd (initBoard a b) 210 = _
    rw [rd_initBoard]
    simp
    decide
  · intro i v hv hk
    change rd (initBoard a b) i = some v at hv
    rw [rd_initBoard] at hv
    by_cases h1 : i = 210 ∨ i = 209 ∨ i = 208
    · omega
    · rw [if_neg h1] at hv
      exfalso
      by_cases h2 : i = applePos a b
      · rw [if_pos h2] at hv
        cases hv
        revert hk
        decide
      · rw [if_neg h2] at hv
        have hb := rd_bounds hv
        rw [rd_emptyBoard hb.1 hb.2.1] at hv
        cases hv
        revert hk
        decide

theorem tmod_two_eq {x y : Int} (hx : 0 ≤ x) (hy : 0 ≤ y) :
    x.tmod 2 = y.tmod 2 ↔ x % 2 = y % 2 := by
  rw [Int.tmod_eq_emod hx (by decide), Int.tmod_eq_emod hy (by decide)]

/-- C9. Terminal law: from a state with status Over, `Quit` changes only the
status, to Exited; `None` returns the state unchanged; every other input
returns exactly what `GameState_init` returns, which does not depend on the
previous state, has status Running, and for samples starting with `(a, b)` is
the initial state `initState a b`. -/
theorem step_over (rnd : Samples) (input : Input) (s : GameState)
    (hs : s.status = GameStatus.over) :
    GameState_step rnd Input.quit s = some ({ s with status := GameStatus.exit }, rnd) ∧
    GameState_step rnd Input.none s = some (s, rnd) ∧
    (input ≠ Input.quit → input ≠ Input.none →
      GameState_step rnd input s = GameState_init rnd s ∧
      (∀ s0 : GameState, GameState_init rnd s = GameState_init rnd s0) ∧
      (∀ (t : GameState) (rest : Samples),
        GameState_step rnd input s = some (t, rest) → t.status = GameStatus.running) ∧
      (∀ (a b : Nat) (rest : Samples), rnd = (a, b) :: rest →
        GameState_step rnd input s = some (initState a b, rest))) := by
  have hstep : input ≠ Input.quit → input ≠ Input.none →
      GameState_step rnd input s = GameState_init rnd s := by
    intro h1 h2
    unfold GameState_step
    rw [hs]
    cases input <;> first | rfl | exact absurd rfl h1 | exact absurd rfl h2
  refine ⟨?_, ?_, ?_⟩
  · unfold GameState_step
    rw [hs]
  · unfold GameState_step
    rw [hs]
  · intro h1 h2
    refine ⟨hstep h1 h2, fun s0 => rfl, ?_, ?_⟩
    · intro t rest ht
      rw [hstep h1 h2] at ht
      cases rnd with
      | nil => simp [GameState_init, GameState_spawnApple] at ht
      | cons p r =>
        obtain ⟨a, b⟩ := p
        rw [init_eq] at ht
        cases ht
        rfl
    · intro a b rest hr
      rw [hstep h1 h2, hr, init_eq]

theorem step_over_witness :
    overState.status = GameStatus.over ∧
    GameState_step [(3, 4)] Input.quit overState =
      some ({ overState with status := GameStatus.exit }, [(3, 4)]) :=
  ⟨rfl, (step_over [(3, 4)] Input.up overState rfl).1⟩

/-- C2. Perpendicularity law: in a Running state, a directional input whose
mapped direction has the same parity as the direction stored in the head cell
(the current heading or its reverse) returns the state unchanged in every
field, and draws no sample. -/
theorem step_same_axis (rnd : Samples) (input : Input) (s : GameState) (hc : Int)
    (hs : s.status = GameStatus.running) (hd : input.isDir = true)
    (hh : rd s.board s.head = some hc)
    (hp : mapCellDirection input % 2 = dirOf hc % 2) :
    GameState_step rnd input s = some (s, rnd) := by
  have hb := dirOf_bounds hc
  have hm := mapCellDirection_bounds input
  have ht : (Int.land hc CellDirection_mask).tmod 2 = (mapCellDirection input).tmod 2 :=
    (tmod_two_eq hb.1 hm.1).2 hp.symm
  unfold GameState_step
  rw [hs]
  simp only [hh]
  cases input <;>
    first
    | (simp only [ne_eq, ht, not_true_eq_false, if_false]; done)
    | exact absurd hd (by decide)

set_option maxRecDepth 100000 in
theorem step_same_axis_witness :
    GameState_step [] Input.left (initState 5 5) = some (initState 5 5, []) :=
  step_same_axis [] Input.left (initState 5 5) 11 rfl rfl (by decide) (by decide)

theorem Advances.bounds {input : Input} {hc d : Int} (h : Advances input hc d) :
    0 ≤ d ∧ d ≤ 3 := by
  rcases h with ⟨_, h⟩ | ⟨_, h, _⟩
  · rw [h]; exact dirOf_bounds hc
  · rw [h]; exact mapCellDirection_bounds input

theorem step_advance (rnd : Samples) {input : Input} {s : GameState} {hc d : Int}
    (hs : s.status = GameStatus.running) (hh : rd s.board s.head = some hc)
    (ha : Advances input hc d) : GameState_step rnd input s = advance rnd s d := by
  unfold GameState_step
  rw [hs]
  simp only [hh]
  rcases ha with ⟨hi, hd⟩ | ⟨hi, hd, hp⟩
  · subst hi
    rw [hd]
    rfl
  · have hb := dirOf_bounds hc
    have hm := mapCellDirection_bounds input
    have ht : (Int.land hc CellDirection_mask).tmod 2 ≠ (mapCellDirection input).tmod 2 := by
      intro h
      apply hp
      rw [hd]
      exact ((tmod_two_eq hb.1 hm.1).1 h).symm
    rw [hd]
    cases input <;>
      first
      | (simp only [ne_eq, ht, not_false_eq_true, if_true]; done)
      | exact absurd hi (by decide)

/-- The running tick when the cell entered is of kind SnakeBody. -/
theorem advance_snake (rnd : Samples) {s : GameState} {hc nc d : Int}
    (hh : rd s.board s.head = some hc) (hn : rd s.board (cellDir s.head d) = some nc)
    (hk : kindOf nc = CellType_snake) :
    advance rnd s d = some ({ s with
      board := (s.board.set s.head.toNat (Int.lor CellType_snake d)).set
        (cellDir s.head d).toNat (Int.lor CellType_snake d)
      head := cellDir s.head d
      status := GameStatus.over }, rnd) := by
  have h1 := rd_bounds hh
  have h2 := rd_bounds hn
  unfold kindOf at hk
  unfold advance
  rw [wr_eq _ _ h1.1 h1.2.1]
  simp only [hn]
  rw [wr_eq _ _ h2.1 h2.2.1]
  simp only [hk, if_true]

/-- The running tick when the cell entered is of kind Empty. -/
theorem advance_empty (rnd : Samples) {s : GameState} {hc nc tc d : Int}
    (hh : rd s.board s.head = some hc) (hn : rd s.board (cellDir s.head d) = some nc)
    (ht : rd s.board s.tail = some tc) (hk : kindOf nc = CellType_empty) :
    advance rnd s d = some ({ s with
      board := ((s.board.set s.head.toNat (Int.lor CellType_snake d)).set
        (cellDir s.head d).toNat (Int.lor CellType_snake d)).set s.tail.toNat CellType_empty
      head := cellDir s.head d
      tail := cellDir s.tail (dirOf tc) }, rnd) := by
  have h1 := rd_bounds hh
  have h2 := rd_bounds hn
  have h3 := rd_bounds ht
  unfold kindOf at hk
  unfold advance
  rw [wr_eq _ _ h1.1 h1.2.1]
  simp only [hn]
  rw [wr_eq _ _ h2.1 h2.2.1]
  have e1 : ¬ CellType_empty = CellType_snake := by decide
  simp only [hk, e1, if_true, if_false]
  rw [wr_eq _ _ h3.1 h3.2.1]
  simp only [ht]
  rfl

/-- The running tick when the cell entered is of kind Apple. -/
theorem advance_apple (rnd : Samples) {s : GameState} {hc nc d : Int}
    (hh : rd s.board s.head = some hc) (hn : rd s.board (cellDir s.head d) = some nc)
    (hk : kindOf nc = CellType_apple) :
    advance rnd s d =
      match addInt s.applesEaten 1 with
      | Option.none => Option.none
      | some ae =>
        match addInt 850 ae with
        | Option.none => Option.none
        | some sp =>
          GameState_spawnApple rnd { s with
            board := (s.board.set s.head.toNat (Int.lor CellType_snake d)).set
              (cellDir s.head d).toNat (Int.lor CellType_snake d)
            head := cellDir s.head d
            applesEaten := ae
            snakeSpeed := sp } := by
  have h1 := rd_bounds hh
  have h2 := rd_bounds hn
  unfold kindOf at hk
  unfold advance
  rw [wr_eq _ _ h1.1 h1.2.1]
  simp only [hn]
  rw [wr_eq _ _ h2.1 h2.2.1]
  have e1 : ¬ CellType_apple = CellType_snake := by decide
  have e2 : ¬ CellType_apple = CellType_empty := by decide
  simp only [hk, e1, e2, if_true, if_false]

theorem spawnApple_some {rnd : Samples} {gs t : GameState} {rest : Samples}
    (h : GameState_spawnApple rnd gs = some (t, rest)) :
    ∃ pos : Int, rd gs.board pos = some CellType_empty ∧
      t = { gs with board := gs.board.set pos.toNat CellType_apple } := by
  induction rnd with
  | nil => simp [GameState_spawnApple] at h
  | cons p r ih =>
    obtain ⟨a, b⟩ := p
    rw [spawnApple_cons] at h
    cases hv : rd gs.board (applePos a b) with
    | none => simp [hv] at h
    | some v =>
      simp only [hv] at h
      by_cases hz : v = CellType_empty
      · rw [if_neg (by simpa using hz)] at h
        refine ⟨applePos a b, by rw [hv, hz], ?_⟩
        cases h
        rfl
      · rw [if_pos hz] at h
        exact ih h

theorem spawnApple_total {rnd : Samples} {gs : GameState} (hl : gs.board.length = 400)
    (h : ∃ p ∈ rnd, rd gs.board (applePos p.1 p.2) = some CellType_empty) :
    ∃ t rest, GameState_spawnApple rnd gs = some (t, rest) := by
  induction rnd with
  | nil =>
    obtain ⟨p, hp, _⟩ := h
    cases hp
  | cons q r ih =>
    obtain ⟨a, b⟩ := q
    have hb := applePos_bounds a b
    obtain ⟨v, hv⟩ := rd_eq_some hl hb.1 hb.2
    rw [spawnApple_cons]
    simp only [hv]
    by_cases hz : v = CellType_empty
    · rw [if_neg (by simpa using hz)]
      exact ⟨_, _, rfl⟩
    · rw [if_pos hz]
      apply ih
      obtain ⟨p, hp, hpe⟩ := h
      rcases List.mem_cons.1 hp with h1 | h1
      · subst h1
        rw [hv] at hpe
        exact absurd (Option.some.inj hpe) hz
      · exact ⟨p, h1, hpe⟩

theorem countKind_set {b : List Int} {i old : Int} (v k : Int) (hr : rd b i = some old) :
    countKind (b.set i.toNat v) k + (if kindOf old = k then 1 else 0) =
      countKind b k + (if kindOf v = k then 1 else 0) := by
  have hb := rd_bounds hr
  have hget : b[i.toNat] = old := by
    unfold rd at hr
    rw [Board_size_eq, if_neg (by omega), List.getElem?_eq_getElem hb.2.2] at hr
    exact Option.some.inj hr
  unfold countKind
  rw [List.countP_set _ _ _ _ hb.2.2, hget]
  have hle := List.boole_getElem_le_countP (fun v => decide (kindOf v = k)) b i.toNat hb.2.2
  rw [hget] at hle
  simp only [decide_eq_true_eq] at hle ⊢
  omega

theorem addInt_some {a b c : Int} (h : addInt a b = some c) : c = a + b := by
  unfold addInt at h
  split at h
  · exact (Option.some.inj h).symm
  · cases h

theorem addInt_eq {a b : Int} (h0 : INT_MIN ≤ a + b) (h1 : a + b ≤ INT_MAX) :
    addInt a b = some (a + b) := by
  unfold addInt
  rw [if_pos ⟨h0, h1⟩]

theorem kind_ne_of_rd {b : List Int} {i j x y : Int} (hi : rd b i = some x)
    (hj : rd b j = some y) (hne : kindOf x ≠ kindOf y) : i ≠ j := by
  intro h
  subst h
  rw [hi] at hj
  exact hne (by rw [Option.some.inj hj])

/-- C3. Growth law: in a Running state whose head cell is SnakeBody, when the
input makes the snake advance (None, or a perpendicular direction) into a cell
of kind Apple, every result of `GameState_step` has `applesEaten` one larger,
one more SnakeBody cell, the same tail, status Running and
`snakeSpeed = 850 + (applesEaten + 1)`; and a result exists as soon as the
samples contain a cell that holds `CellType_empty` (and the two additions do
not overflow). -/
theorem growth_law (rnd : Samples) (input : Input) (s : GameState) (hc nc d : Int)
    (hs : s.status = GameStatus.running)
    (hh : rd s.board s.head = some hc) (hhk : kindOf hc = CellType_snake)
    (ha : Advances input hc d)
    (hn : rd s.board (cellDir s.head d) = some nc) (hnk : kindOf nc = CellType_apple) :
    (∀ (t : GameState) (rest : Samples), GameState_step rnd input s = some (t, rest) →
      t.applesEaten = s.applesEaten + 1 ∧
      countKind t.board CellType_snake = countKind s.board CellType_snake + 1 ∧
      t.tail = s.tail ∧ t.status = GameStatus.running ∧
      t.snakeSpeed = 850 + (s.applesEaten + 1)) ∧
    (s.board.length = 400 → INT_MIN ≤ s.applesEaten + 1 → s.applesEaten + 851 ≤ INT_MAX →
      (∃ p ∈ rnd, rd s.board (applePos p.1 p.2) = some CellType_empty) →
      ∃ t rest, GameState_step rnd input s = some (t, rest)) := by
  have hd := ha.bounds
  have hks := kindOf_snake_lor hd.1 hd.2
  have h1 := rd_bounds hh
  have h2 := rd_bounds hn
  have hne : s.head ≠ cellDir s.head d :=
    kind_ne_of_rd hh hn (by rw [hhk, hnk]; decide)
  rw [step_advance rnd hs hh ha, advance_apple rnd hh hn hnk]
  constructor
  · intro t rest ht
    cases hae : addInt s.applesEaten 1 with
    | none => simp [hae] at ht
    | some ae =>
      simp only [hae] at ht
      cases hsp : addInt 850 ae with
      | none => simp [hsp] at ht
      | some sp =>
        simp only [hsp] at ht
        obtain ⟨pos, hpos, ht⟩ := spawnApple_some ht
        have e1 := addInt_some hae
        have e2 := addInt_some hsp
        subst ht
        refine ⟨e1, ?_, rfl, hs, by rw [← e1]; exact e2⟩
        have c1 := countKind_set (Int.lor CellType_snake d) CellType_snake hh
        have hn1 : rd (s.board.set s.head.toNat (Int.lor CellType_snake d))
            (cellDir s.head d) = some nc := by
          rw [rd_set_ne _ _ h1.1 hne]; exact hn
        have c2 := countKind_set (Int.lor CellType_snake d) CellType_snake hn1
        dsimp only at hpos
        have c3 := countKind_set CellType_apple CellType_snake hpos
        have k1 : ¬ kindOf nc = CellType_snake := by rw [hnk]; decide
        have k2 : ¬ kindOf CellType_empty = CellType_snake := by decide
        have k3 : ¬ kindOf CellType_apple = CellType_snake := by decide
        simp only [hks, hhk, k1, k2, k3, if_true, if_false, eq_self_iff_true] at c1 c2 c3
        dsimp only
        omega
  · intro hl hmin hmax hex
    rw [addInt_eq hmin (by omega)]
    simp only []
    rw [addInt_eq (by unfold INT_MIN at *; omega) (by omega)]
    simp only []
    apply spawnApple_total
    · simp [hl]
    · obtain ⟨p, hp, hpe⟩ := hex
      refine ⟨p, hp, ?_⟩
      have hz : kindOf CellType_empty ≠ kindOf hc := by rw [hhk]; decide
      have hz2 : kindOf CellType_empty ≠ kindOf nc := by rw [hnk]; decide
      have n1 := (kind_ne_of_rd hpe hh hz).symm
      have n2 := (kind_ne_of_rd hpe hn hz2).symm
      show rd (List.set _ _ _) _ = _
      rw [rd_set_ne _ _ h2.1 n2, rd_set_ne _ _ h1.1 n1]
      exact hpe

set_option maxRecDepth 100000 in
theorem growth_law_witness :
    appleAhead.status = GameStatus.running ∧
    rd appleAhead.board appleAhead.head = some 11 ∧
    rd appleAhead.board (cellDir appleAhead.head 3) = some 4 ∧
    ∃ t rest, GameState_step [(0, 0)] Input.none appleAhead = some (t, rest) :=
  ⟨rfl, by decide, by decide,
    (growth_law [(0, 0)] Input.none appleAhead 11 4 3 rfl (by decide) (by decide)
      (Or.inl ⟨rfl, by decide⟩) (by decide) (by decide)).2 (by decide) (by decide) (by decide)
      ⟨(0, 0), by decide, by decide⟩⟩

/-- C4. Non-growth law: in a Running state whose head and tail cells are
SnakeBody, when the input makes the snake advance (None, or a perpendicular
direction) into a cell of kind Empty, `GameState_step` returns a state with the
same number of SnakeBody cells and of Apple cells, the new head cell of kind
SnakeBody, the old tail cell `CellType_empty`, and `applesEaten`, `snakeSpeed`
and the status unchanged. -/
theorem non_growth_law (rnd : Samples) (input : Input) (s : GameState) (hc tc nc d : Int)
    (hs : s.status = GameStatus.running) (hl : s.board.length = 400)
    (hh : rd s.board s.head = some hc) (hhk : kindOf hc = CellType_snake)
    (ht : rd s.board s.tail = some tc) (htk : kindOf tc = CellType_snake)
    (ha : Advances input hc d)
    (hn : rd s.board (cellDir s.head d) = some nc) (hnk : kindOf nc = CellType_empty) :
    ∃ t, GameState_step rnd input s = some (t, rnd) ∧
      countKind t.board CellType_snake = countKind s.board CellType_snake ∧
      countKind t.board CellType_apple = countKind s.board CellType_apple ∧
      (∃ v, rd t.board t.head = some v ∧ kindOf v = CellType_snake) ∧
      rd t.board s.tail = some CellType_empty ∧
      t.applesEaten = s.applesEaten ∧ t.snakeSpeed = s.snakeSpeed ∧
      t.status = GameStatus.running := by
  have hd := ha.bounds
  have hks := kindOf_snake_lor hd.1 hd.2
  have h1 := rd_bounds hh
  have h2 := rd_bounds hn
  have h3 := rd_bounds ht
  have hne : s.head ≠ cellDir s.head d :=
    kind_ne_of_rd hh hn (by rw [hhk, hnk]; decide)
  have hnt : s.tail ≠ cellDir s.head d :=
    kind_ne_of_rd ht hn (by rw [htk, hnk]; decide)
  rw [step_advance rnd hs hh ha, advance_empty rnd hh hn ht hnk]
  refine ⟨_, rfl, ?_, ?_, ?_, ?_, rfl, rfl, hs⟩
  all_goals dsimp only
  · have hn1 : rd (s.board.set s.head.toNat (Int.lor CellType_snake d))
        (cellDir s.head d) = some nc := by
      rw [rd_set_ne _ _ h1.1 hne]; exact hn
    obtain ⟨x, hx, hxk⟩ : ∃ x, rd ((s.board.set s.head.toNat (Int.lor CellType_snake d)).set
        (cellDir s.head d).toNat (Int.lor CellType_snake d)) s.tail = some x ∧
        kindOf x = CellType_snake := by
      rw [rd_set_ne _ _ h2.1 hnt.symm]
      by_cases hth : s.tail = s.head
      · rw [hth, rd_set_self _ hl h1.1 h1.2.1]
        exact ⟨_, rfl, hks⟩
      · rw [rd_set_ne _ _ h1.1 (Ne.symm hth)]
        exact ⟨tc, ht, htk⟩
    have c1 := countKind_set (Int.lor CellType_snake d) CellType_snake hh
    have c2 := countKind_set (Int.lor CellType_snake d) CellType_snake hn1
    have c3 := countKind_set CellType_empty CellType_snake hx
    have k1 : ¬ kindOf nc = CellType_snake := by rw [hnk]; decide
    have k2 : ¬ kindOf CellType_empty = CellType_snake := by decide
    simp only [hks, hhk, hxk, k1, k2, if_true, if_false, eq_self_iff_true] at c1 c2 c3
    omega
  · have hn1 : rd (s.board.set s.head.toNat (Int.lor CellType_snake d))
        (cellDir s.head d) = some nc := by
      rw [rd_set_ne _ _ h1.1 hne]; exact hn
    obtain ⟨x, hx, hxk⟩ : ∃ x, rd ((s.board.set s.head.toNat (Int.lor CellType_snake d)).set
        (cellDir s.head d).toNat (Int.lor CellType_snake d)) s.tail = some x ∧
        kindOf x = CellType_snake := by
      rw [rd_set_ne _ _ h2.1 hnt.symm]
      by_cases hth : s.tail = s.head
      · rw [hth, rd_set_self _ hl h1.1 h1.2.1]
        exact ⟨_, rfl, hks⟩
      · rw [rd_set_ne _ _ h1.1 (Ne.symm hth)]
        exact ⟨tc, ht, htk⟩
    have c1 := countKind_set (Int.lor CellType_snake d) CellType_apple hh
    have c2 := countKind_set (Int.lor CellType_snake d) CellType_apple hn1
    have c3 := countKind_set CellType_empty CellType_apple hx
    have k0 : ¬ CellType_snake = CellType_apple := by decide
    have k1 : ¬ kindOf nc = CellType_apple := by rw [hnk]; decide
    have k2 : ¬ kindOf CellType_empty = CellType_apple := by decide
    simp only [hks, hhk, hxk, k0, k1, k2, if_true, if_false, eq_self_iff_true] at c1 c2 c3
    omega
  · refine ⟨Int.lor CellType_snake d, ?_, hks⟩
    rw [rd_set_ne _ _ h3.1 hnt, rd_set_self _ (by simp [hl]) h2.1 h2.2.1]
  · exact rd_set_self _ (by simp [hl]) h3.1 h3.2.1

set_option maxRecDepth 100000 in
theorem non_growth_law_witness :
    (initState 5 5).status = GameStatus.running ∧
    rd (initState 5 5).board (cellDir (initState 5 5).head 3) = some 0 ∧
    ∃ t, GameState_step [] Input.none (initState 5 5) = some (t, []) ∧
      countKind t.board CellType_snake = countKind (initState 5 5).board CellType_snake := by
  refine ⟨rfl, by decide, ?_⟩
  obtain ⟨t, h1, h2, _⟩ := non_growth_law [] Input.none (initState 5 5) 11 11 0 3 rfl
    (by decide) (by decide) (by decide) (by decide) (by decide)
    (Or.inl ⟨rfl, by decide⟩) (by decide) (by decide)
  exact ⟨t, h1, h2⟩

/-- The running tick when the cell entered has the occupancy bits `0x0C`. -/
theorem advance_other (rnd : Samples) {s : GameState} {hc nc d : Int}
    (hh : rd s.board s.head = some hc) (hn : rd s.board (cellDir s.head d) = some nc)
    (h1 : kindOf nc ≠ CellType_snake) (h2 : kindOf nc ≠ CellType_empty)
    (h3 : kindOf nc ≠ CellType_apple) :
    advance rnd s d = some ({ s with
      board := (s.board.set s.head.toNat (Int.lor CellType_snake d)).set
        (cellDir s.head d).toNat (Int.lor CellType_snake d)
      head := cellDir s.head d }, rnd) := by
  have b1 := rd_bounds hh
  have b2 := rd_bounds hn
  unfold kindOf at h1 h2 h3
  unfold advance
  rw [wr_eq _ _ b1.1 b1.2.1]
  simp only [hn]
  rw [wr_eq _ _ b2.1 b2.2.1]
  simp only [h1, h2, h3, if_false]

/-- The two cells written by the advance hold `CellType_snake | d` on the board
after both writes. -/
theorem rd_advanced {b : List Int} {h n : Int} (v : Int) (hl : b.length = 400)
    (h0 : 0 ≤ h ∧ h < 400) (n0 : 0 ≤ n ∧ n < 400) :
    rd ((b.set h.toNat v).set n.toNat v) h = some v ∧
    rd ((b.set h.toNat v).set n.toNat v) n = some v ∧
    ∀ i, i ≠ h → i ≠ n → rd ((b.set h.toNat v).set n.toNat v) i = rd b i := by
  have hl1 : (b.set h.toNat v).length = 400 := by simp [hl]
  refine ⟨?_, rd_set_self _ hl1 n0.1 n0.2, ?_⟩
  · rw [rd_set _ _ _ hl1 n0.1 n0.2]
    split
    · rfl
    · exact rd_set_self _ hl h0.1 h0.2
  · intro i hi hn
    rw [rd_set_ne _ _ n0.1 (Ne.symm hn), rd_set_ne _ _ h0.1 (Ne.symm hi)]

/-- C6. Tail retraction follows stored directions: in a Running state, when
the input makes the snake advance into a cell of kind Empty, `GameState_step`
returns a state whose cell at the old tail is `CellType_empty`, whose tail is
the neighbour of the old tail in the direction stored there before the step,
and whose board differs from the old one at most at the old head, the new head
and the old tail. -/
theorem tail_retraction (rnd : Samples) (input : Input) (s : GameState) (hc tc nc d : Int)
    (hs : s.status = GameStatus.running) (hl : s.board.length = 400)
    (hh : rd s.board s.head = some hc) (ht : rd s.board s.tail = some tc)
    (ha : Advances input hc d)
    (hn : rd s.board (cellDir s.head d) = some nc) (hnk : kindOf nc = CellType_empty) :
    ∃ t, GameState_step rnd input s = some (t, rnd) ∧
      rd t.board s.tail = some CellType_empty ∧
      t.tail = cellDir s.tail (dirOf tc) ∧
      ∀ i, i ≠ s.head → i ≠ t.head → i ≠ s.tail → rd t.board i = rd s.board i := by
  have h1 := rd_bounds hh
  have h2 := rd_bounds hn
  have h3 := rd_bounds ht
  rw [step_advance rnd hs hh ha, advance_empty rnd hh hn ht hnk]
  refine ⟨_, rfl, ?_, rfl, ?_⟩
  · exact rd_set_self _ (by simp [hl]) h3.1 h3.2.1
  · intro i hi hn' hti
    dsimp only at hn' ⊢
    rw [rd_set_ne _ _ h3.1 (Ne.symm hti)]
    exact (rd_advanced _ hl ⟨h1.1, h1.2.1⟩ ⟨h2.1, h2.2.1⟩).2.2 i hi hn'

set_option maxRecDepth 100000 in
theorem tail_retraction_witness :
    (initState 5 5).status = GameStatus.running ∧
    kindOf 0 = CellType_empty ∧
    ∃ t, GameState_step [] Input.none (initState 5 5) = some (t, []) ∧
      rd t.board 208 = some CellType_empty ∧ t.tail = 209 := by
  refine ⟨rfl, by decide, ?_⟩
  obtain ⟨t, h1, h2, h3, _⟩ := tail_retraction [] Input.none (initState 5 5) 11 11 0 3 rfl
    (by decide) (by decide) (by decide) (Or.inl ⟨rfl, by decide⟩) (by decide) (by decide)
  exact ⟨t, h1, h2, by rw [h3]; decide⟩

/-- C7. Self-collision: in a Running state, when the input makes the snake
advance into a cell of kind SnakeBody (the tail cell included),
`GameState_step` returns a state with status Over whose tail, `applesEaten`
and `snakeSpeed` are unchanged; the only cells written are the old and the new
head, both with `CellType_snake | d`, so no cell is cleared to Empty. -/
theorem self_collision (rnd : Samples) (input : Input) (s : GameState) (hc nc d : Int)
    (hs : s.status = GameStatus.running) (hl : s.board.length = 400)
    (hh : rd s.board s.head = some hc) (ha : Advances input hc d)
    (hn : rd s.board (cellDir s.head d) = some nc) (hnk : kindOf nc = CellType_snake) :
    ∃ t, GameState_step rnd input s = some (t, rnd) ∧
      t.status = GameStatus.over ∧ t.tail = s.tail ∧
      t.applesEaten = s.applesEaten ∧ t.snakeSpeed = s.snakeSpeed ∧
      t.head = cellDir s.head d ∧
      (∀ i, i ≠ s.head → i ≠ cellDir s.head d → rd t.board i = rd s.board i) ∧
      (∀ i v, rd t.board i = some v → kindOf v = CellType_empty → rd s.board i = some v) := by
  have hd := ha.bounds
  have hks := kindOf_snake_lor hd.1 hd.2
  have h1 := rd_bounds hh
  have h2 := rd_bounds hn
  have hadv := rd_advanced (Int.lor CellType_snake d) hl ⟨h1.1, h1.2.1⟩ ⟨h2.1, h2.2.1⟩
  rw [step_advance rnd hs hh ha, advance_snake rnd hh hn hnk]
  refine ⟨_, rfl, rfl, rfl, rfl, rfl, rfl, hadv.2.2, ?_⟩
  intro i v hv hk
  dsimp only at hv
  have hne : ¬ CellType_snake = CellType_empty := by decide
  by_cases hi : i = s.head
  · rw [hi, hadv.1] at hv
    rw [← Option.some.inj hv, hks] at hk
    exact absurd hk hne
  · by_cases hi2 : i = cellDir s.head d
    · rw [hi2, hadv.2.1] at hv
      rw [← Option.some.inj hv, hks] at hk
      exact absurd hk hne
    · rw [hadv.2.2 i hi hi2] at hv
      exact hv

set_option maxRecDepth 100000 in
theorem self_collision_witness :
    coiled.status = GameStatus.running ∧
    rd coiled.board coiled.head = some 8 ∧
    rd coiled.board (cellDir coiled.head 1) = some 10 ∧
    ∃ t, GameState_step [] Input.left coiled = some (t, []) ∧
      t.status = GameStatus.over := by
  refine ⟨rfl, by decide, by decide, ?_⟩
  obtain ⟨t, h1, h2, _⟩ := self_collision [] Input.left coiled 8 10 1 rfl
    (by decide) (by decide) (Or.inr ⟨rfl, by decide, by decide⟩) (by decide) (by decide)
  exact ⟨t, h1, h2⟩

theorem cellDir_edge {c d : Int} (h0 : 0 ≤ c)
    (hedge : (d = CellDirection_right ∧ cellX c = 19) ∨ (d = CellDirection_left ∧ cellX c = 0) ∨
      (d = CellDirection_up ∧ cellY c = 0) ∨ (d = CellDirection_down ∧ cellY c = 19)) :
    cellDir c d = c := by
  have hx : c.tmod 20 = c % 20 := Int.tmod_eq_emod h0 (by decide)
  have hy : c.tdiv 20 = c / 20 := Int.tdiv_eq_ediv h0 (by decide)
  simp only [cellDir, cell, cellX, cellY, Board_width, Board_height, Snake.min, Snake.max,
    CellDirection_up, CellDirection_left, CellDirection_down, CellDirection_right, hx, hy]
    at hedge ⊢
  rcases hedge with ⟨hd, he⟩ | ⟨hd, he⟩ | ⟨hd, he⟩ | ⟨hd, he⟩ <;> subst hd <;>
    simp only [he] <;> norm_num <;> omega

/-- C8. Boundary scenario: in a Running state whose head cell is SnakeBody and
lies on a board edge, when the direction of advance points off that edge,
`cellDir` returns the head index itself (inside `0 .. 399`) and
`GameState_step` returns a state with status Over and the same head. -/
theorem wall_collision (rnd : Samples) (input : Input) (s : GameState) (hc d : Int)
    (hs : s.status = GameStatus.running)
    (hh : rd s.board s.head = some hc) (hhk : kindOf hc = CellType_snake)
    (ha : Advances input hc d)
    (hedge : (d = CellDirection_right ∧ cellX s.head = 19) ∨
      (d = CellDirection_left ∧ cellX s.head = 0) ∨
      (d = CellDirection_up ∧ cellY s.head = 0) ∨
      (d = CellDirection_down ∧ cellY s.head = 19)) :
    cellDir s.head d = s.head ∧ 0 ≤ cellDir s.head d ∧ cellDir s.head d < 400 ∧
    ∃ t, GameState_step rnd input s = some (t, rnd) ∧
      t.status = GameStatus.over ∧ t.head = s.head := by
  have h1 := rd_bounds hh
  have he := cellDir_edge h1.1 hedge
  have hn : rd s.board (cellDir s.head d) = some hc := by rw [he]; exact hh
  refine ⟨he, by rw [he]; exact h1.1, by rw [he]; exact h1.2.1, ?_⟩
  rw [step_advance rnd hs hh ha, advance_snake rnd hh hn hhk]
  exact ⟨_, rfl, rfl, he⟩

set_option maxRecDepth 100000 in
theorem wall_collision_witness :
    atRightEdge.status = GameStatus.running ∧
    rd atRightEdge.board atRightEdge.head = some 11 ∧ cellX atRightEdge.head = 19 ∧
    ∃ t, GameState_step [] Input.none atRightEdge = some (t, []) ∧
      t.status = GameStatus.over ∧ t.head = atRightEdge.head := by
  refine ⟨rfl, by decide, by decide, ?_⟩
  exact (wall_collision [] Input.none atRightEdge 11 3 rfl (by decide) (by decide)
    (Or.inl ⟨rfl, by decide⟩) (Or.inl ⟨by decide, by decide⟩)).2.2.2

/-- C5, amended. Head advance: in a Running state with tail different from
head, and with the tail not an Empty cell that the head enters, every result
of `GameState_step` on an advancing input with direction `d` has its head at
`cellDir s.head d`, and both the old and the new head cell hold exactly
`CellType_snake | d`; a result exists whenever the cell entered is not an
Apple. -/
theorem head_advance (rnd : Samples) (input : Input) (s : GameState) (hc nc d : Int)
    (hs : s.status = GameStatus.running) (hl : s.board.length = 400)
    (hne : s.tail ≠ s.head)
    (hh : rd s.board s.head = some hc) (ha : Advances input hc d)
    (hn : rd s.board (cellDir s.head d) = some nc)
    (hsafe : s.tail = cellDir s.head d → kindOf nc ≠ CellType_empty) :
    (∀ (t : GameState) (rest : Samples), GameState_step rnd input s = some (t, rest) →
      t.head = cellDir s.head d ∧
      rd t.board s.head = some (Int.lor CellType_snake d) ∧
      rd t.board t.head = some (Int.lor CellType_snake d)) ∧
    (kindOf nc ≠ CellType_apple → (∃ tc, rd s.board s.tail = some tc) →
      ∃ t, GameState_step rnd input s = some (t, rnd)) := by
  have hd := ha.bounds
  have hks := kindOf_snake_lor hd.1 hd.2
  have h1 := rd_bounds hh
  have h2 := rd_bounds hn
  have hadv := rd_advanced (Int.lor CellType_snake d) hl ⟨h1.1, h1.2.1⟩ ⟨h2.1, h2.2.1⟩
  rw [step_advance rnd hs hh ha]
  by_cases k1 : kindOf nc = CellType_snake
  · rw [advance_snake rnd hh hn k1]
    refine ⟨?_, fun _ _ => ⟨_, rfl⟩⟩
    intro t rest ht
    cases ht
    exact ⟨rfl, hadv.1, hadv.2.1⟩
  by_cases k2 : kindOf nc = CellType_empty
  · constructor
    · intro t rest ht
      cases htc : rd s.board s.tail with
      | none =>
        exfalso
        have e1 : ¬ CellType_empty = CellType_snake := by decide
        unfold advance at ht
        rw [wr_eq _ _ h1.1 h1.2.1] at ht
        simp only [hn] at ht
        rw [wr_eq _ _ h2.1 h2.2.1] at ht
        unfold kindOf at k2
        simp only [k2, e1, htc, if_true, if_false] at ht
        split at ht <;> cases ht
      | some tc =>
        have h3 := rd_bounds htc
        rw [advance_empty rnd hh hn htc k2] at ht
        cases ht
        have hnt : s.tail ≠ cellDir s.head d := fun h => hsafe h k2
        refine ⟨rfl, ?_, ?_⟩
        · dsimp only
          rw [rd_set_ne _ _ h3.1 hne]
          exact hadv.1
        · dsimp only
          rw [rd_set_ne _ _ h3.1 hnt]
          exact hadv.2.1
    · intro _ htc
      obtain ⟨tc, htc⟩ := htc
      rw [advance_empty rnd hh hn htc k2]
      exact ⟨_, rfl⟩
  by_cases k3 : kindOf nc = CellType_apple
  · refine ⟨?_, fun h => absurd k3 h⟩
    rw [advance_apple rnd hh hn k3]
    intro t rest ht
    cases hae : addInt s.applesEaten 1 with
    | none => simp [hae] at ht
    | some ae =>
      simp only [hae] at ht
      cases hsp : addInt 850 ae with
      | none => simp [hsp] at ht
      | some sp =>
        simp only [hsp] at ht
        obtain ⟨pos, hpos, ht⟩ := spawnApple_some ht
        dsimp only at hpos
        have hp := rd_bounds hpos
        have hz : kindOf CellType_empty ≠ kindOf (Int.lor CellType_snake d) := by
          rw [hks]; decide
        have n1 := kind_ne_of_rd hpos hadv.1 hz
        have n2 := kind_ne_of_rd hpos hadv.2.1 hz
        subst ht
        refine ⟨rfl, ?_, ?_⟩
        · dsimp only
          rw [rd_set_ne _ _ hp.1 n1]
          exact hadv.1
        · dsimp only
          rw [rd_set_ne _ _ hp.1 n2]
          exact hadv.2.1
  · rw [advance_other rnd hh hn k1 k2 k3]
    refine ⟨?_, fun _ _ => ⟨_, rfl⟩⟩
    intro t rest ht
    cases ht
    exact ⟨rfl, hadv.1, hadv.2.1⟩

set_option maxRecDepth 100000 in
theorem head_advance_witness :
    (initState 5 5).status = GameStatus.running ∧
    (initState 5 5).tail ≠ (initState 5 5).head ∧
    ∀ (t : GameState) (rest : Samples),
      GameState_step [] Input.up (initState 5 5) = some (t, rest) →
      t.head = 190 ∧ rd t.board 210 = some 8 ∧ rd t.board t.head = some 8 := by
  refine ⟨rfl, by decide, ?_⟩
  intro t rest ht
  have h := (head_advance [] Input.up (initState 5 5) 11 0 0 rfl (by decide) (by decide)
    (by decide) (Or.inr ⟨rfl, by decide, by decide⟩) (by decide) (by decide)).1 t rest ht
  exact ⟨by rw [h.1]; decide, h.2.1, h.2.2⟩

set_option maxRecDepth 100000 in
/-- C5 as stated fails: in the Running state `tailAhead` (tail different from
head) the input `None` advances the head into the cell the tail index points
at, and the tail retraction then clears the new head cell. -/
theorem head_advance_counterexample :
    ¬ ∀ (rnd : Samples) (input : Input) (s : GameState) (hc d : Int),
      s.status = GameStatus.running → s.board.length = 400 → s.tail ≠ s.head →
      rd s.board s.head = some hc → Advances input hc d →
      ∀ (t : GameState) (rest : Samples), GameState_step rnd input s = some (t, rest) →
        t.head = cellDir s.head d ∧
        rd t.board s.head = some (Int.lor CellType_snake d) ∧
        rd t.board t.head = some (Int.lor CellType_snake d) := by
  intro h
  have hstep : GameState_step [] Input.none tailAhead = some (tailAheadNext, []) := by decide
  have h2 := (h [] Input.none tailAhead 11 3 rfl (by decide) (by decide) (by decide)
    (Or.inl ⟨rfl, by decide⟩) tailAheadNext [] hstep).2.2
  revert h2
  decide

theorem chain_congr {R S : Int → Int → Prop} {p : List Int} (hc : List.Chain' R p)
    (h : ∀ x ∈ p, ∀ y, R x y → S x y) : List.Chain' S p := by
  have h1 := List.Chain'.iff_mem.1 hc
  exact h1.imp (fun x y ⟨hx, _, hr⟩ => h x hx y hr)

/-- A chain stays a chain when the relation changes at its last element only. -/
theorem chain_transfer {R S : Int → Int → Prop} {p : List Int} {hd : Int}
    (hl : p.getLast? = some hd) (hn : p.Nodup) (hc : List.Chain' R p)
    (h : ∀ x ∈ p, x ≠ hd → ∀ y, R x y → S x y) : List.Chain' S p := by
  induction p with
  | nil => exact List.chain'_nil
  | cons a r ih =>
    cases r with
    | nil => exact List.chain'_singleton a
    | cons c r2 =>
      rw [List.getLast?_cons_cons] at hl
      have hmem : hd ∈ c :: r2 := List.mem_of_getLast?_eq_some hl
      have ha : a ≠ hd := by
        intro e
        rw [e] at hn
        exact (List.nodup_cons.1 hn).1 hmem
      rw [List.chain'_cons] at hc ⊢
      refine ⟨h a (List.mem_cons_self _ _) ha c hc.1, ?_⟩
      exact ih hl (List.nodup_cons.1 hn).2 hc.2
        (fun x hx hxh y hr => h x (List.mem_cons_of_mem _ hx) hxh y hr)

theorem follow_congr {b c : List Int} {x : Int} (h : rd c x = rd b x) :
    follow c x = follow b x := by
  unfold follow
  rw [h]

theorem PathInv.head_mem {b : List Int} {tl hd : Int} {p : List Int} (h : PathInv b tl hd p) :
    hd ∈ p := List.mem_of_getLast?_eq_some h.last

theorem PathInv.tail_mem {b : List Int} {tl hd : Int} {p : List Int} (h : PathInv b tl hd p) :
    tl ∈ p := List.mem_of_mem_head? h.first

theorem PathInv.rd_mem {b : List Int} {tl hd : Int} {p : List Int} (h : PathInv b tl hd p)
    {i : Int} (hi : i ∈ p) : ∃ v, rd b i = some v ∧ kindOf v = CellType_snake := by
  have hb := h.inside i hi
  obtain ⟨v, hv⟩ := rd_eq_some h.size hb.1 hb.2
  exact ⟨v, hv, (h.snake i v hv).2 hi⟩

/-- Writing `CellType_snake | d` into the head cell and into the cell entered,
when that cell is not SnakeBody, extends the path by the cell entered. -/
theorem PathInv.grow {b : List Int} {tl hd : Int} {p : List Int} (h : PathInv b tl hd p)
    {d nc : Int} (hd0 : 0 ≤ d) (hd3 : d ≤ 3) (hn : rd b (cellDir hd d) = some nc)
    (hk : kindOf nc ≠ CellType_snake) :
    PathInv ((b.set hd.toNat (Int.lor CellType_snake d)).set (cellDir hd d).toNat
      (Int.lor CellType_snake d)) tl (cellDir hd d) (p ++ [cellDir hd d]) := by
  have hks := kindOf_snake_lor hd0 hd3
  have hds := dirOf_snake_lor hd0 hd3
  have hhd := h.inside hd h.head_mem
  have hnb := rd_bounds hn
  have hnp : cellDir hd d ∉ p := fun hm => hk ((h.snake _ _ hn).2 hm)
  have hadv := rd_advanced (Int.lor CellType_snake d) h.size hhd ⟨hnb.1, hnb.2.1⟩
  have hpne : p ≠ [] := by
    intro e
    have := h.two_le
    rw [e] at this
    simp at this
  refine ⟨by simp [h.size], ?_, ?_, ?_, List.getLast?_concat p, ?_, ?_, ?_, ?_⟩
  · have := h.two_le
    simp
    omega
  · rw [List.nodup_append]
    refine ⟨h.nodup, List.nodup_singleton _, ?_⟩
    rw [List.disjoint_singleton]
    exact hnp
  · rw [List.head?_append_of_ne_nil _ hpne]
    exact h.first
  · rw [List.chain'_append]
    refine ⟨?_, List.chain'_singleton _, ?_⟩
    · apply chain_transfer h.last h.nodup h.chain
      intro x hx hxh y hr
      have hxn : x ≠ cellDir hd d := fun e => hnp (e ▸ hx)
      rw [follow_congr (hadv.2.2 x hxh hxn)]
      exact hr
    · intro x hx y hy
      rw [h.last] at hx
      cases hx
      simp only [List.head?_cons, Option.mem_def, Option.some.injEq] at hy
      subst hy
      unfold follow
      rw [hadv.1]
      simp only [Option.map_some', hds]
  · intro i hi
    rcases List.mem_append.1 hi with hi | hi
    · exact h.inside i hi
    · rw [List.mem_singleton] at hi
      rw [hi]
      exact ⟨hnb.1, hnb.2.1⟩
  · intro i v hv
    by_cases h1 : i = hd
    · rw [h1, hadv.1] at hv
      cases hv
      rw [h1]
      exact ⟨fun _ => List.mem_append_left _ h.head_mem, fun _ => hks⟩
    · by_cases h2 : i = cellDir hd d
      · rw [h2, hadv.2.1] at hv
        cases hv
        rw [h2]
        exact ⟨fun _ => List.mem_append_right _ (List.mem_singleton_self _), fun _ => hks⟩
      · rw [hadv.2.2 i h1 h2] at hv
        rw [h.snake i v hv, List.mem_append, List.mem_singleton]
        exact ⟨Or.inl, fun hm => hm.resolve_right h2⟩
  · obtain ⟨hc, hhc, hhk⟩ := h.rd_mem h.head_mem
    have hne : hd ≠ cellDir hd d := fun e => hnp (e ▸ h.head_mem)
    have hn1 : rd (b.set hd.toNat (Int.lor CellType_snake d)) (cellDir hd d) = some nc := by
      rw [rd_set_ne _ _ hhd.1 hne]; exact hn
    have c1 := countKind_set (Int.lor CellType_snake d) CellType_snake hhc
    have c2 := countKind_set (Int.lor CellType_snake d) CellType_snake hn1
    have c0 := h.count
    simp only [hks, hhk, hk, if_true, if_false, eq_self_iff_true] at c1 c2
    simp only [List.length_append, List.length_singleton]
    omega

/-- Placing an apple on a cell that holds `CellType_empty` keeps the path. -/
theorem PathInv.apple {b : List Int} {tl hd : Int} {p : List Int} (h : PathInv b tl hd p)
    {pos : Int} (hp : rd b pos = some CellType_empty) :
    PathInv (b.set pos.toNat CellType_apple) tl hd p := by
  have hpb := rd_bounds hp
  have k0 : ¬ kindOf CellType_empty = CellType_snake := by decide
  have k4 : ¬ kindOf CellType_apple = CellType_snake := by decide
  have hnp : pos ∉ p := fun hm => k0 ((h.snake _ _ hp).2 hm)
  refine ⟨by simp [h.size], h.two_le, h.nodup, h.first, h.last, ?_, h.inside, ?_, ?_⟩
  · apply chain_congr h.chain
    intro x hx y hr
    have hxn : pos ≠ x := fun e => hnp (e ▸ hx)
    rw [follow_congr (rd_set_ne _ _ hpb.1 hxn)]
    exact hr
  · intro i v hv
    by_cases h1 : i = pos
    · rw [h1, rd_set_self _ h.size hpb.1 hpb.2.1] at hv
      cases hv
      rw [h1]
      exact ⟨fun e => absurd e k4, fun e => absurd e hnp⟩
    · rw [rd_set_ne _ _ hpb.1 (Ne.symm h1)] at hv
      exact h.snake i v hv
  · have c1 := countKind_set CellType_apple CellType_snake hp
    have c0 := h.count
    simp only [k0, k4, if_false] at c1
    omega

/-- Clearing the tail cell of a path of at least three cells leaves the path
without its first cell; the new tail is the cell the old tail pointed to. -/
theorem PathInv.shrink {b : List Int} {tl hd : Int} {p : List Int} (h : PathInv b tl hd p)
    {tc : Int} (h3 : 3 ≤ p.length) (ht : rd b tl = some tc) :
    PathInv (b.set tl.toNat CellType_empty) (cellDir tl (dirOf tc)) hd p.tail := by
  have htb := rd_bounds ht
  have k0 : ¬ kindOf CellType_empty = CellType_snake := by decide
  match p, h, h3 with
  | a :: x :: q, h, h3 =>
    have ha : a = tl := by
      have := h.first
      simpa using this
    subst ha
    have hnd := List.nodup_cons.1 h.nodup
    have hch := List.chain'_cons.1 h.chain
    have hx : cellDir a (dirOf tc) = x := by
      have := hch.1
      unfold follow at this
      rw [ht] at this
      simpa using this
    have hlast : (x :: q).getLast? = some hd := by
      have := h.last
      rwa [List.getLast?_cons_cons] at this
    rw [hx]
    refine ⟨by simp [h.size], ?_, hnd.2, rfl, hlast, ?_, ?_, ?_, ?_⟩
    · simp only [List.tail_cons, List.length_cons] at h3 ⊢
      omega
    · apply chain_congr hch.2
      intro y hy z hr
      have hya : a ≠ y := fun e => hnd.1 (e ▸ hy)
      rw [follow_congr (rd_set_ne _ _ htb.1 hya)]
      exact hr
    · intro i hi
      exact h.inside i (List.mem_cons_of_mem _ hi)
    · intro i v hv
      by_cases h1 : i = a
      · rw [h1, rd_set_self _ h.size htb.1 htb.2.1] at hv
        cases hv
        rw [h1]
        exact ⟨fun e => absurd e k0, fun e => absurd e hnd.1⟩
      · rw [rd_set_ne _ _ htb.1 (Ne.symm h1)] at hv
        rw [h.snake i v hv, List.mem_cons]
        exact ⟨fun hm => hm.resolve_left h1, Or.inr⟩
    · have hk : kindOf tc = CellType_snake := (h.snake _ _ ht).2 (List.mem_cons_self _ _)
      have c1 := countKind_set CellType_empty CellType_snake ht
      have c0 := h.count
      simp only [k0, hk, if_true, if_false, eq_self_iff_true, List.length_cons] at c1 c0
      simp only [List.tail_cons, List.length_cons]
      omega

theorem countKind_emptyBoard :
    countKind (List.replicate Board_size.toNat CellType_empty) CellType_snake = 0 := by
  unfold countKind
  rw [List.countP_replicate]
  have : ¬ kindOf CellType_empty = CellType_snake := by decide
  simp [this]

/-- The board of the initializer just after apple placement holds no snake. -/
theorem rd_appleBoard (a b : Nat) {j : Int} (h0 : 0 ≤ j) (h1 : j < 400) :
    ∃ old, rd ((List.replicate Board_size.toNat CellType_empty).set (applePos a b).toNat
      CellType_apple) j = some old ∧ kindOf old ≠ CellType_snake := by
  have hb := applePos_bounds a b
  rw [rd_set _ _ _ emptyBoard_length hb.1 hb.2]
  split
  · exact ⟨_, rfl, by decide⟩
  · rw [rd_emptyBoard h0 h1]
    exact ⟨_, rfl, by decide⟩

theorem countKind_initBoard (a b : Nat) : countKind (initBoard a b) CellType_snake = 3 := by
  have hb := applePos_bounds a b
  have hl := emptyBoard_length
  have k0 : ¬ kindOf CellType_empty = CellType_snake := by decide
  have k4 : ¬ kindOf CellType_apple = CellType_snake := by decide
  have k11 : kindOf 11 = CellType_snake := by decide
  have c0 := countKind_emptyBoard
  have c1 := countKind_set CellType_apple CellType_snake (rd_emptyBoard hb.1 hb.2)
  obtain ⟨o1, r1, n1⟩ := rd_appleBoard a b (j := 208) (by decide) (by decide)
  obtain ⟨o2, r2, n2⟩ := rd_appleBoard a b (j := 209) (by decide) (by decide)
  obtain ⟨o3, r3, n3⟩ := rd_appleBoard a b (j := 210) (by decide) (by decide)
  have c2 := countKind_set 11 CellType_snake r1
  have e208 : (208 : Int).toNat = 208 := rfl
  have e209 : (209 : Int).toNat = 209 := rfl
  have e210 : (210 : Int).toNat = 210 := rfl
  rw [e208] at c2
  have r2' : rd (((List.replicate Board_size.toNat CellType_empty).set (applePos a b).toNat
      CellType_apple).set 208 11) 209 = some o2 := by
    rw [rd_set_nat _ 208 _ _ (by simp [hl]) (by decide), if_neg (by decide)]
    exact r2
  have c3 := countKind_set 11 CellType_snake r2'
  rw [e209] at c3
  have r3' : rd ((((List.replicate Board_size.toNat CellType_empty).set (applePos a b).toNat
      CellType_apple).set 208 11).set 209 11) 210 = some o3 := by
    rw [rd_set_nat _ 209 _ _ (by simp [hl]) (by decide), if_neg (by decide),
      rd_set_nat _ 208 _ _ (by simp [hl]) (by decide), if_neg (by decide)]
    exact r3
  have c4 := countKind_set 11 CellType_snake r3'
  rw [e210] at c4
  simp only [k0, k4, k11, n1, n2, n3, if_true, if_false, eq_self_iff_true] at c1 c2 c3 c4
  unfold initBoard
  omega

theorem initState_inv (a b : Nat) :
    PathInv (initState a b).board (initState a b).tail (initState a b).head
      [208, 209, 210] := by
  have hr : ∀ j : Int, j = 210 ∨ j = 209 ∨ j = 208 → rd (initBoard a b) j = some 11 := by
    intro j hj
    rw [rd_initBoard, if_pos hj]
  have hf : ∀ j c : Int, (j = 210 ∨ j = 209 ∨ j = 208) → cellDir j 3 = c →
      follow (initBoard a b) j = some c := by
    intro j c hj hc
    unfold follow
    rw [hr j hj]
    have : dirOf 11 = 3 := by decide
    simp only [Option.map_some', this, hc]
  refine ⟨?_, by simp, by decide, rfl, rfl, ?_, ?_, ?_, countKind_initBoard a b⟩
  · simp only [initState, initBoard, List.length_set, emptyBoard_length]
  · show List.Chain' _ [208, 209, 210]
    rw [List.chain'_cons, List.chain'_pair]
    exact ⟨hf 208 209 (by decide) (by decide), hf 209 210 (by decide) (by decide)⟩
  · intro i hi
    simp only [List.mem_cons, List.mem_singleton, List.not_mem_nil, or_false] at hi
    omega
  · intro i v hv
    change rd (initBoard a b) i = some v at hv
    simp only [List.mem_cons, List.mem_singleton, List.not_mem_nil, or_false]
    by_cases h1 : i = 210 ∨ i = 209 ∨ i = 208
    · rw [hr i h1] at hv
      cases hv
      have : kindOf 11 = CellType_snake := by decide
      constructor
      · intro _; omega
      · intro _; exact this
    · rw [rd_initBoard, if_neg h1] at hv
      have hne : ¬ kindOf v = CellType_snake := by
        by_cases h2 : i = applePos a b
        · rw [if_pos h2] at hv
          cases hv
          decide
        · rw [if_neg h2] at hv
          have hb := rd_bounds hv
          rw [rd_emptyBoard hb.1 hb.2.1] at hv
          cases hv
          decide
      constructor
      · intro e; exact absurd e hne
      · intro e; omega

theorem step_running_cases {rnd : Samples} {input : Input} {s t : GameState}
    {rest : Samples} (hs : s.status = GameStatus.running)
    (h : GameState_step rnd input s = some (t, rest)) :
    t.status = GameStatus.exit ∨ t = s ∨
      ∃ d, 0 ≤ d ∧ d ≤ 3 ∧ advance rnd s d = some (t, rest) := by
  unfold GameState_step at h
  rw [hs] at h
  cases hh : rd s.board s.head with
  | none => simp [hh] at h
  | some hc =>
    simp only [hh] at h
    have hb := dirOf_bounds hc
    have key : ∀ i : Input,
        (if (Int.land hc CellDirection_mask).tmod 2 ≠ (mapCellDirection i).tmod 2
          then advance rnd s (mapCellDirection i) else some (s, rnd)) = some (t, rest) →
        t.status = GameStatus.exit ∨ t = s ∨
          ∃ d, 0 ≤ d ∧ d ≤ 3 ∧ advance rnd s d = some (t, rest) := by
      intro i hi
      have hm := mapCellDirection_bounds i
      split at hi
      · exact Or.inr (Or.inr ⟨_, hm.1, hm.2, hi⟩)
      · cases hi
        exact Or.inr (Or.inl rfl)
    cases input with
    | quit =>
      cases h
      exact Or.inl rfl
    | none => exact Or.inr (Or.inr ⟨_, hb.1, hb.2, h⟩)
    | up => exact key Input.up h
    | left => exact key Input.left h
    | down => exact key Input.down h
    | right => exact key Input.right h

theorem advance_inv {rnd : Samples} {s t : GameState} {rest : Samples} {d : Int}
    {p : List Int} (h : PathInv s.board s.tail s.head p) (hd0 : 0 ≤ d) (hd3 : d ≤ 3)
    (ha : advance rnd s d = some (t, rest)) (ht : t.status = GameStatus.running) :
    ∃ q, PathInv t.board t.tail t.head q := by
  obtain ⟨hc, hh, _⟩ := h.rd_mem h.head_mem
  obtain ⟨tc, htc, _⟩ := h.rd_mem h.tail_mem
  have hhb := rd_bounds hh
  have hnb := cellDir_bounds d hhb.1 hhb.2.1
  obtain ⟨nc, hn⟩ := rd_eq_some h.size hnb.1 hnb.2
  by_cases k1 : kindOf nc = CellType_snake
  · rw [advance_snake rnd hh hn k1] at ha
    cases ha
    cases ht
  have hg := h.grow hd0 hd3 hn k1
  by_cases k2 : kindOf nc = CellType_empty
  · rw [advance_empty rnd hh hn htc k2] at ha
    cases ha
    have hnp : cellDir s.head d ∉ p := fun hm => k1 ((h.snake _ _ hn).2 hm)
    have htn : s.tail ≠ cellDir s.head d := fun e => hnp (e ▸ h.tail_mem)
    have hth : s.tail ≠ s.head := by
      intro e
      have h2 := h.two_le
      have hnd := h.nodup
      have hf := h.first
      have hl := h.last
      match p, h2, hnd, hf, hl with
      | a :: x :: q, _, hnd, hf, hl =>
        simp only [List.head?_cons, Option.some.injEq] at hf
        rw [List.getLast?_cons_cons] at hl
        have hm : s.head ∈ x :: q := List.mem_of_getLast?_eq_some hl
        rw [← e, ← hf] at hm
        exact (List.nodup_cons.1 hnd).1 hm
    have htc2 : rd ((s.board.set s.head.toNat (Int.lor CellType_snake d)).set
        (cellDir s.head d).toNat (Int.lor CellType_snake d)) s.tail = some tc := by
      rw [(rd_advanced _ h.size ⟨hhb.1, hhb.2.1⟩ hnb).2.2 _ hth htn]
      exact htc
    have h3 : 3 ≤ (p ++ [cellDir s.head d]).length := by
      have := h.two_le
      simp only [List.length_append, List.length_singleton]
      omega
    exact ⟨_, hg.shrink h3 htc2⟩
  by_cases k3 : kindOf nc = CellType_apple
  · rw [advance_apple rnd hh hn k3] at ha
    cases hae : addInt s.applesEaten 1 with
    | none => simp [hae] at ha
    | some ae =>
      simp only [hae] at ha
      cases hsp : addInt 850 ae with
      | none => simp [hsp] at ha
      | some sp =>
        simp only [hsp] at ha
        obtain ⟨pos, hpos, ha⟩ := spawnApple_some ha
        subst ha
        exact ⟨_, hg.apple hpos⟩
  · rw [advance_other rnd hh hn k1 k2 k3] at ha
    cases ha
    exact ⟨_, hg⟩

theorem reachable_inv {s : GameState} (hr : Reachable s) :
    s.status = GameStatus.running → ∃ p, PathInv s.board s.tail s.head p := by
  have hinit : ∀ (rnd : Samples) (gs t : GameState) (rest : Samples),
      GameState_init rnd gs = some (t, rest) → ∃ p, PathInv t.board t.tail t.head p := by
    intro rnd gs t rest h
    cases rnd with
    | nil => simp [GameState_init, GameState_spawnApple] at h
    | cons q r =>
      obtain ⟨a, b⟩ := q
      rw [init_eq] at h
      cases h
      exact ⟨_, initState_inv a b⟩
  induction hr with
  | init rnd gs s rest h => exact fun _ => hinit rnd gs s rest h
  | step rnd input s t rest _ h ih =>
    intro ht
    cases hs : s.status with
    | exit =>
      unfold GameState_step at h
      rw [hs] at h
      cases h
      rw [hs] at ht
      cases ht
    | over =>
      unfold GameState_step at h
      rw [hs] at h
      cases input with
      | quit => cases h; cases ht
      | none => cases h; rw [hs] at ht; cases ht
      | up => exact hinit _ _ _ _ h
      | left => exact hinit _ _ _ _ h
      | down => exact hinit _ _ _ _ h
      | right => exact hinit _ _ _ _ h
    | running =>
      obtain ⟨p, hp⟩ := ih hs
      rcases step_running_cases hs h with he | he | ⟨d, hd0, hd3, ha⟩
      · rw [he] at ht
        cases ht
      · rw [he]
        exact ⟨p, hp⟩
      · exact advance_inv hp hd0 hd3 ha ht

/-- Along the path of the invariant, `k` steps from the tail reach the `k`-th cell. -/
theorem PathInv.trace_eq {b : List Int} {tl hd : Int} {p : List Int} (h : PathInv b tl hd p) :
    ∀ (k : Nat) (hk : k < p.length), trace b tl k = some p[k] := by
  intro k
  induction k with
  | zero =>
    intro hk
    have hf := h.first
    rw [List.head?_eq_getElem?, List.getElem?_eq_getElem hk] at hf
    rw [trace, Option.some.inj hf]
  | succ k ih =>
    intro hk
    have hc := List.chain'_iff_get.1 h.chain k (by omega)
    simp only [List.get_eq_getElem] at hc
    rw [trace, ih (by omega)]
    exact hc

/-- C1. Path invariant: in every Running state reachable from `GameState_init`
by `GameState_step` (any inputs, any samples), with `n` the number of cells of
kind SnakeBody, following the stored directions from the tail visits, in the
steps `0 .. n - 1`, `n` pairwise distinct cells, all of kind SnakeBody, and
reaches the head after exactly `n - 1` steps. -/
theorem path_invariant (s : GameState) (hr : Reachable s)
    (hs : s.status = GameStatus.running) :
    2 ≤ countKind s.board CellType_snake ∧
    (∀ k, k < countKind s.board CellType_snake →
      ∃ c v, trace s.board s.tail k = some c ∧ rd s.board c = some v ∧
        kindOf v = CellType_snake) ∧
    (∀ j k, j < countKind s.board CellType_snake → k < countKind s.board CellType_snake →
      trace s.board s.tail j = trace s.board s.tail k → j = k) ∧
    trace s.board s.tail (countKind s.board CellType_snake - 1) = some s.head := by
  obtain ⟨p, hp⟩ := reachable_inv hr hs
  rw [hp.count]
  have h2 := hp.two_le
  refine ⟨h2, ?_, ?_, ?_⟩
  · intro k hk
    obtain ⟨v, hv, hkind⟩ := hp.rd_mem (List.getElem_mem hk)
    exact ⟨p[k], v, hp.trace_eq k hk, hv, hkind⟩
  · intro j k hj hk he
    rw [hp.trace_eq j hj, hp.trace_eq k hk] at he
    exact (hp.nodup.getElem_inj_iff).1 (Option.some.inj he)
  · have hl := hp.last
    rw [List.getLast?_eq_getElem?, List.getElem?_eq_getElem (by omega)] at hl
    rw [hp.trace_eq (p.length - 1) (by omega), Option.some.inj hl]

theorem path_invariant_witness :
    Reachable (initState 5 5) ∧ (initState 5 5).status = GameStatus.running ∧
    trace (initState 5 5).board (initState 5 5).tail
      (countKind (initState 5 5).board CellType_snake - 1) = some (initState 5 5).head :=
  ⟨Reachable.init [(5, 5)] overState (initState 5 5) [] (init_eq 5 5 [] overState), rfl,
    (path_invariant (initState 5 5)
      (Reachable.init [(5, 5)] overState (initState 5 5) [] (init_eq 5 5 [] overState))
      rfl).2.2.2⟩

theorem cellXY_eq {c : Int} (h0 : 0 ≤ c) : cellX c = c % 20 ∧ cellY c = c / 20 := by
  unfold cellX cellY Board_width
  exact ⟨Int.tmod_eq_emod h0 (by decide), Int.tdiv_eq_ediv h0 (by decide)⟩

theorem cellDir_formula {c d : Int} (h0 : 0 ≤ c) (hd0 : 0 ≤ d) (hd3 : d ≤ 3) :
    (d = 0 ∧ cellDir c d = 20 * (if c / 20 - 1 > 0 then c / 20 - 1 else 0) + c % 20) ∨
    (d = 1 ∧ cellDir c d = 20 * (c / 20) + (if c % 20 - 1 > 0 then c % 20 - 1 else 0)) ∨
    (d = 2 ∧ cellDir c d = 20 * (if c / 20 + 1 < 19 then c / 20 + 1 else 19) + c % 20) ∨
    (d = 3 ∧ cellDir c d = 20 * (c / 20) + (if c % 20 + 1 < 19 then c % 20 + 1 else 19)) := by
  have hxy := cellXY_eq h0
  have hd : d = 0 ∨ d = 1 ∨ d = 2 ∨ d = 3 := by omega
  rcases hd with h | h | h | h <;> subst h <;>
    simp [cellDir, cell, hxy.1, hxy.2, Board_width, Board_height, Snake.min, Snake.max,
      CellDirection_up, CellDirection_left, CellDirection_down, CellDirection_right]

/-- C18. Coordinate/index round trip: for `x`, `y` in `0 .. 19`, `cell x y`
lies in `0 .. 399` and `cellX`, `cellY` recover `x` and `y`; for `c` in
`0 .. 399`, `cell (cellX c) (cellY c) = c`. -/
theorem cell_roundtrip (x y c : Int) (hx : 0 ≤ x ∧ x < 20) (hy : 0 ≤ y ∧ y < 20)
    (hc : 0 ≤ c ∧ c < 400) :
    (0 ≤ cell x y ∧ cell x y < 400 ∧ cellX (cell x y) = x ∧ cellY (cell x y) = y) ∧
    cell (cellX c) (cellY c) = c := by
  have hcell : cell x y = 20 * y + x := rfl
  have h0 : 0 ≤ cell x y := by rw [hcell]; omega
  have h1 := cellXY_eq h0
  have h2 := cellXY_eq hc.1
  refine ⟨⟨h0, by rw [hcell]; omega, ?_, ?_⟩, ?_⟩
  · rw [h1.1, hcell]; omega
  · rw [h1.2, hcell]; omega
  · rw [h2.1, h2.2]
    show 20 * (c / 20) + c % 20 = c
    omega

theorem cell_roundtrip_witness :
    (0 ≤ cell 3 4 ∧ cell 3 4 < 400 ∧ cellX (cell 3 4) = 3 ∧ cellY (cell 3 4) = 4) ∧
    cell (cellX 83) (cellY 83) = 83 :=
  cell_roundtrip 3 4 83 (by decide) (by decide) (by decide)

/-- C17. Neighbour with edge clamping: for `c` in `0 .. 399` and a direction
`d`, `cellDir c d` is the cell at the clamped coordinates of the
specification, lies in `0 .. 399`, equals `c` exactly when `c` is on the edge
`d` points at, and keeps the column for Up and Down and the row for Left and
Right. -/
theorem cellDir_clamped (c d : Int) (hc : 0 ≤ c ∧ c < 400) (hd : 0 ≤ d ∧ d ≤ 3) :
    cellDir c d = cell (clampedNeighbour (cellX c) (cellY c) d).1
      (clampedNeighbour (cellX c) (cellY c) d).2 ∧
    0 ≤ cellDir c d ∧ cellDir c d < 400 ∧
    (cellDir c d = c ↔ onEdge c d) ∧
    ((d = CellDirection_up ∨ d = CellDirection_down) → cellX (cellDir c d) = cellX c) ∧
    ((d = CellDirection_left ∨ d = CellDirection_right) →
      cellY (cellDir c d) = cellY c) := by
  have hxy := cellXY_eq hc.1
  have hb := cellDir_bounds d hc.1 hc.2
  have hr := cellXY_eq hb.1
  have hf := cellDir_formula hc.1 hd.1 hd.2
  refine ⟨?_, hb.1, hb.2, ?_, ?_, ?_⟩
  · simp only [clampedNeighbour, cell, hxy.1, hxy.2, Board_width, CellDirection_up,
      CellDirection_left, CellDirection_down]
    rcases hf with ⟨h, e⟩ | ⟨h, e⟩ | ⟨h, e⟩ | ⟨h, e⟩ <;> subst h <;> rw [e] <;>
      simp only [max_def, min_def] <;> norm_num <;> split_ifs <;> omega
  · simp only [onEdge, hxy.1, hxy.2, Board_width, Board_height, CellDirection_up,
      CellDirection_left, CellDirection_down, CellDirection_right]
    rcases hf with ⟨h, e⟩ | ⟨h, e⟩ | ⟨h, e⟩ | ⟨h, e⟩ <;> subst h <;> rw [e] <;>
      norm_num <;> split_ifs <;> omega
  · rw [hr.1, hxy.1]
    simp only [CellDirection_up, CellDirection_down]
    rcases hf with ⟨h, e⟩ | ⟨h, e⟩ | ⟨h, e⟩ | ⟨h, e⟩ <;> subst h <;> rw [e] <;>
      norm_num <;> split_ifs <;> omega
  · rw [hr.2, hxy.2]
    simp only [CellDirection_left, CellDirection_right]
    rcases hf with ⟨h, e⟩ | ⟨h, e⟩ | ⟨h, e⟩ | ⟨h, e⟩ <;> subst h <;> rw [e] <;>
      norm_num <;> split_ifs <;> omega

theorem cellDir_clamped_witness :
    cellDir 219 3 = cell (clampedNeighbour (cellX 219) (cellY 219) 3).1
      (clampedNeighbour (cellX 219) (cellY 219) 3).2 ∧
    0 ≤ cellDir 219 3 ∧ cellDir 219 3 < 400 ∧ (cellDir 219 3 = 219 ↔ onEdge 219 3) :=
  ⟨(cellDir_clamped 219 3 (by decide) (by decide)).1,
    (cellDir_clamped 219 3 (by decide) (by decide)).2.1,
    (cellDir_clamped 219 3 (by decide) (by decide)).2.2.1,
    (cellDir_clamped 219 3 (by decide) (by decide)).2.2.2.1⟩

/-- C12. Quit while Running: in a Running state `GameState_step` on `Quit`
returns a state with status Exited whose board, head, tail, `applesEaten` and
`snakeSpeed` are those of the previous state, and draws no sample. -/
theorem quit_running (rnd : Samples) (s : GameState) (hc : Int)
    (hs : s.status = GameStatus.running) (hh : rd s.board s.head = some hc) :
    ∃ t, GameState_step rnd Input.quit s = some (t, rnd) ∧
      t.status = GameStatus.exit ∧ t.board = s.board ∧ t.head = s.head ∧
      t.tail = s.tail ∧ t.applesEaten = s.applesEaten ∧ t.snakeSpeed = s.snakeSpeed := by
  refine ⟨{ s with status := GameStatus.exit }, ?_, rfl, rfl, rfl, rfl, rfl, rfl⟩
  unfold GameState_step
  rw [hs]
  simp only [hh]

set_option maxRecDepth 100000 in
theorem quit_running_witness :
    coiled.status = GameStatus.running ∧ rd coiled.board coiled.head = some 8 ∧
    ∃ t, GameState_step [(1, 2)] Input.quit coiled = some (t, [(1, 2)]) ∧
      t.status = GameStatus.exit ∧ t.board = coiled.board :=
  ⟨rfl, by decide,
    (quit_running [(1, 2)] coiled 8 rfl (by decide)).imp
      (fun _ h => ⟨h.1, h.2.1, h.2.2.1⟩)⟩

/-- C13. Exited is a dead state: from a state with status Exited,
`GameState_step` returns the same state for every input, draws no sample, and
every sequence of steps ends in that same state. -/
theorem exited_dead (rnd : Samples) (input : Input) (s : GameState)
    (hs : s.status = GameStatus.exit) :
    GameState_step rnd input s = some (s, rnd) ∧ ∀ t, StepsTo s t → t = s := by
  have h1 : ∀ (r : Samples) (i : Input), GameState_step r i s = some (s, r) := by
    intro r i
    unfold GameState_step
    rw [hs]
  refine ⟨h1 rnd input, ?_⟩
  intro t ht
  induction ht with
  | refl => rfl
  | step r i t u rest _ hu ih =>
    subst ih
    rw [h1 r i] at hu
    cases hu
    rfl

theorem exited_dead_witness :
    exitedState.status = GameStatus.exit ∧
    GameState_step [(7, 7)] Input.right exitedState = some (exitedState, [(7, 7)]) :=
  ⟨rfl, (exited_dead [(7, 7)] Input.right exitedState rfl).1⟩

theorem countKind_emptyBoard_apple :
    countKind (List.replicate Board_size.toNat CellType_empty) CellType_apple = 0 := by
  unfold countKind
  rw [List.countP_replicate]
  have : ¬ kindOf CellType_empty = CellType_apple := by decide
  simp [this]

/-- When the sampled cell is none of the three snake cells, the initial board
holds exactly one apple. -/
theorem countKind_initBoard_apple (a b : Nat)
    (hne : applePos a b ≠ 208 ∧ applePos a b ≠ 209 ∧ applePos a b ≠ 210) :
    countKind (initBoard a b) CellType_apple = 1 := by
  have hb := applePos_bounds a b
  have hl := emptyBoard_length
  have hl1 : ((List.replicate Board_size.toNat CellType_empty).set (applePos a b).toNat
      CellType_apple).length = 400 := by simp [hl]
  have k0 : ¬ kindOf CellType_empty = CellType_apple := by decide
  have k4 : kindOf CellType_apple = CellType_apple := by decide
  have k11 : ¬ kindOf 11 = CellType_apple := by decide
  have c0 := countKind_emptyBoard_apple
  have c1 := countKind_set CellType_apple CellType_apple (rd_emptyBoard hb.1 hb.2)
  have base : ∀ j : Int, 0 ≤ j → j < 400 → j ≠ applePos a b →
      rd ((List.replicate Board_size.toNat CellType_empty).set (applePos a b).toNat
        CellType_apple) j = some CellType_empty := by
    intro j h0 h1 hj
    rw [rd_set _ _ _ hl hb.1 hb.2, if_neg hj, rd_emptyBoard h0 h1]
  have r1 := base 208 (by decide) (by decide) (Ne.symm hne.1)
  have r2 : rd (((List.replicate Board_size.toNat CellType_empty).set (applePos a b).toNat
      CellType_apple).set 208 11) 209 = some CellType_empty := by
    rw [rd_set_nat _ 208 _ _ hl1 (by decide), if_neg (by decide)]
    exact base 209 (by decide) (by decide) (Ne.symm hne.2.1)
  have r3 : rd ((((List.replicate Board_size.toNat CellType_empty).set (applePos a b).toNat
      CellType_apple).set 208 11).set 209 11) 210 = some CellType_empty := by
    rw [rd_set_nat _ 209 _ _ (by simp [hl]) (by decide), if_neg (by decide),
      rd_set_nat _ 208 _ _ hl1 (by decide), if_neg (by decide)]
    exact base 210 (by decide) (by decide) (Ne.symm hne.2.2)
  have c2 := countKind_set 11 CellType_apple r1
  have c3 := countKind_set 11 CellType_apple r2
  have c4 := countKind_set 11 CellType_apple r3
  have e208 : (208 : Int).toNat = 208 := rfl
  have e209 : (209 : Int).toNat = 209 := rfl
  have e210 : (210 : Int).toNat = 210 := rfl
  rw [e208] at c2
  rw [e209] at c3
  rw [e210] at c4
  simp only [k0, k4, k11, if_true, if_false, eq_self_iff_true] at c1 c2 c3 c4
  unfold initBoard
  omega

set_option maxRecDepth 100000 in
/-- C11 at the failing input. When apple placement draws the samples `8`, `10`
(cell 208, the tail cell of the initial snake), the apple is overwritten by the
snake and the state `GameState_init` returns holds no cell of kind Apple. -/
theorem init_apple_overwritten :
    ∃ t, GameState_init [(8, 10)] overState = some (t, []) ∧
      countKind t.board CellType_apple = 0 ∧ countKind t.board CellType_snake = 3 :=
  ⟨initState 8 10, init_eq 8 10 [] overState, by decide, by decide⟩

theorem rd_set_same {b : List Int} {i old : Int} (v : Int) (h : rd b i = some old) :
    rd (b.set i.toNat v) i = some v := by
  have hb := rd_bounds h
  unfold rd
  rw [Board_size_eq, if_neg (by omega)]
  simp [hb.2.2]

/-- C14, amended. Apple placement postcondition: whenever
`GameState_spawnApple` returns, the apple is at the first sampled cell whose
value equals `CellType_empty`; that cell holds `CellType_apple` afterwards, so
its occupancy kind is Apple, and every other cell, the head, the tail, the
status, `applesEaten` and `snakeSpeed` are unchanged. -/
theorem apple_placement (rnd : Samples) (gs t : GameState) (rest : Samples)
    (h : GameState_spawnApple rnd gs = some (t, rest)) :
    ∃ pos, firstSampled (fun v => v = CellType_empty) gs.board rnd = some pos ∧
      rd gs.board pos = some CellType_empty ∧
      rd t.board pos = some CellType_apple ∧
      kindOf CellType_apple = CellType_apple ∧
      (∀ i, i ≠ pos → rd t.board i = rd gs.board i) ∧
      t.head = gs.head ∧ t.tail = gs.tail ∧ t.status = gs.status ∧
      t.applesEaten = gs.applesEaten ∧ t.snakeSpeed = gs.snakeSpeed := by
  induction rnd with
  | nil => simp [GameState_spawnApple] at h
  | cons p r ih =>
    obtain ⟨a, c⟩ := p
    rw [spawnApple_cons] at h
    cases hv : rd gs.board (applePos a c) with
    | none => simp [hv] at h
    | some v =>
      simp only [hv] at h
      by_cases hz : v = CellType_empty
      · rw [if_neg (by simpa using hz)] at h
        cases h
        subst hz
        have hb := rd_bounds hv
        refine ⟨applePos a c, ?_, hv, rd_set_same _ hv, by decide, ?_, rfl, rfl, rfl, rfl, rfl⟩
        · simp only [firstSampled, hv, if_true]
        · intro i hi
          exact rd_set_ne _ _ hb.1 (Ne.symm hi)
      · rw [if_pos hz] at h
        obtain ⟨pos, h1, h2⟩ := ih h
        refine ⟨pos, ?_, h2⟩
        simp only [firstSampled, hv, hz, if_false]
        exact h1

set_option maxRecDepth 100000 in
theorem apple_placement_witness :
    GameState_spawnApple [(0, 0), (1, 0)] dirtyState = some (dirtyNext, []) ∧
    ∃ pos, firstSampled (fun v => v = CellType_empty) dirtyState.board [(0, 0), (1, 0)] =
        some pos ∧ rd dirtyNext.board pos = some CellType_apple := by
  have hs : GameState_spawnApple [(0, 0), (1, 0)] dirtyState = some (dirtyNext, []) := by
    decide
  obtain ⟨pos, h1, _, h3, _⟩ := apple_placement [(0, 0), (1, 0)] dirtyState dirtyNext [] hs
  exact ⟨hs, pos, h1, h3⟩

set_option maxRecDepth 100000 in
/-- C14 as stated fails: on `dirtyState` the first sampled cell, cell 0, has
occupancy kind Empty (its value is 1), yet the retry loop skips it and the
apple goes to the second sampled cell. -/
theorem apple_placement_counterexample :
    ¬ ∀ (rnd : Samples) (gs t : GameState) (rest : Samples),
      gs.board.length = 400 → GameState_spawnApple rnd gs = some (t, rest) →
      ∃ pos, firstSampled (fun v => kindOf v = CellType_empty) gs.board rnd = some pos ∧
        (∃ v, rd t.board pos = some v ∧ kindOf v = CellType_apple) ∧
        ∀ i, i ≠ pos → rd t.board i = rd gs.board i := by
  intro h
  have hs : GameState_spawnApple [(0, 0), (1, 0)] dirtyState = some (dirtyNext, []) := by
    decide
  obtain ⟨pos, h1, ⟨v, h2, h3⟩, _⟩ := h [(0, 0), (1, 0)] dirtyState dirtyNext [] (by decide) hs
  have hp : firstSampled (fun v => kindOf v = CellType_empty) dirtyState.board
      [(0, 0), (1, 0)] = some 0 := by decide
  rw [hp] at h1
  cases h1
  have hr : rd dirtyNext.board 0 = some 1 := by decide
  rw [hr] at h2
  cases h2
  revert h3
  decide

/-- The running tick draws samples only when the cell entered is an Apple. -/
theorem advance_fst_indep (r1 r2 : Samples) (s : GameState) (d : Int)
    (hna : ∀ nc, rd s.board (cellDir s.head d) = some nc → kindOf nc ≠ CellType_apple) :
    (advance r1 s d).map Prod.fst = (advance r2 s d).map Prod.fst := by
  unfold advance
  cases hw : wr s.board s.head (Int.lor CellType_snake d) with
  | none => rfl
  | some b1 =>
    simp only []
    cases hn : rd s.board (cellDir s.head d) with
    | none => rfl
    | some nc =>
      simp only []
      have hk := hna nc hn
      unfold kindOf at hk
      cases hw2 : wr b1 (cellDir s.head d) (Int.lor CellType_snake d) with
      | none => rfl
      | some b2 =>
        simp only [hk, if_false]
        split_ifs
        · rfl
        · cases wr b2 s.tail CellType_empty with
          | none => rfl
          | some b3 =>
            simp only []
            cases rd s.board s.tail with
            | none => rfl
            | some tc => rfl
        · rfl

/-- C19, amended. Determinism of the transition function: when the step places
no apple, that is, when it is neither a restart from Over nor an advance of the
head onto an Apple cell, the state `GameState_step` returns is the same
whatever the samples. -/
theorem step_deterministic (r1 r2 : Samples) (input : Input) (s : GameState)
    (hover : s.status = GameStatus.over → input = Input.quit ∨ input = Input.none)
    (happle : ∀ hc d nc, s.status = GameStatus.running → rd s.board s.head = some hc →
      Advances input hc d → rd s.board (cellDir s.head d) = some nc →
      kindOf nc ≠ CellType_apple) :
    (GameState_step r1 input s).map Prod.fst = (GameState_step r2 input s).map Prod.fst := by
  unfold GameState_step
  cases hs : s.status with
  | exit => rfl
  | over =>
    rcases hover hs with h | h <;> subst h <;> rfl
  | running =>
    simp only []
    cases hh : rd s.board s.head with
    | none => rfl
    | some hc =>
      simp only []
      have hb := dirOf_bounds hc
      have key : ∀ i : Input, i.isDir = true → input = i →
          (if (Int.land hc CellDirection_mask).tmod 2 ≠ (mapCellDirection i).tmod 2
            then advance r1 s (mapCellDirection i) else some (s, r1)).map Prod.fst =
          (if (Int.land hc CellDirection_mask).tmod 2 ≠ (mapCellDirection i).tmod 2
            then advance r2 s (mapCellDirection i) else some (s, r2)).map Prod.fst := by
        intro i hi hin
        have hm := mapCellDirection_bounds i
        split_ifs with hp
        · apply advance_fst_indep
          intro nc hn
          refine happle hc (mapCellDirection i) nc hs hh (Or.inr ⟨hin ▸ hi, hin ▸ rfl, ?_⟩) hn
          intro e
          exact hp ((tmod_two_eq hb.1 hm.1).2 e.symm)
        · rfl
      cases input with
      | quit => rfl
      | none =>
        apply advance_fst_indep
        intro nc hn
        exact happle hc (dirOf hc) nc hs hh (Or.inl ⟨rfl, rfl⟩) hn
      | up => exact key Input.up rfl rfl
      | left => exact key Input.left rfl rfl
      | down => exact key Input.down rfl rfl
      | right => exact key Input.right rfl rfl

set_option maxRecDepth 100000 in
theorem step_deterministic_witness :
    (GameState_step [(1, 1)] Input.up (initState 5 5)).map Prod.fst =
      (GameState_step [(2, 2), (3, 3)] Input.up (initState 5 5)).map Prod.fst :=
  step_deterministic [(1, 1)] [(2, 2), (3, 3)] Input.up (initState 5 5)
    (fun h => absurd h (by decide))
    (fun hc d nc _ hh ha hn => by
      have e1 : hc = 11 := by
        have : rd (initState 5 5).board (initState 5 5).head = some 11 := by decide
        rw [this] at hh
        exact (Option.some.inj hh).symm
      subst e1
      have e2 : d = 0 := by
        rcases ha with ⟨h, _⟩ | ⟨_, h, _⟩
        · cases h
        · exact h
      subst e2
      have : rd (initState 5 5).board (cellDir (initState 5 5).head 0) = some 0 := by decide
      rw [this] at hn
      cases hn
      decide)

set_option maxRecDepth 100000 in
/-- C19 as stated fails: from the same Over state and the same input `Up`, two
calls whose samples differ return different states. -/
theorem step_deterministic_counterexample :
    ¬ ∀ (r1 r2 : Samples) (input : Input) (s t1 t2 : GameState) (q1 q2 : Samples),
      GameState_step r1 input s = some (t1, q1) →
      GameState_step r2 input s = some (t2, q2) → t1 = t2 := by
  intro h
  have h1 : GameState_step [(5, 5)] Input.up overState = some (initState 5 5, []) := by
    decide
  have h2 : GameState_step [(6, 6)] Input.up overState = some (initState 6 6, []) := by
    decide
  have h3 := h _ _ _ _ _ _ _ _ h1 h2
  revert h3
  decide

/-- The four ways a running tick can return a state. -/
theorem advance_cases {rnd : Samples} {s t : GameState} {rest : Samples} {hc d : Int}
    (hh : rd s.board s.head = some hc) (ha : advance rnd s d = some (t, rest)) :
    ∃ nc, rd s.board (cellDir s.head d) = some nc ∧
      ((kindOf nc = CellType_snake ∧
          t = { s with
            board := (s.board.set s.head.toNat (Int.lor CellType_snake d)).set
              (cellDir s.head d).toNat (Int.lor CellType_snake d)
            head := cellDir s.head d
            status := GameStatus.over }) ∨
        (kindOf nc = CellType_empty ∧ ∃ tc, rd s.board s.tail = some tc ∧
          t = { s with
            board := ((s.board.set s.head.toNat (Int.lor CellType_snake d)).set
              (cellDir s.head d).toNat (Int.lor CellType_snake d)).set s.tail.toNat
              CellType_empty
            head := cellDir s.head d
            tail := cellDir s.tail (dirOf tc) }) ∨
        (kindOf nc = CellType_apple ∧ ∃ pos,
          rd ((s.board.set s.head.toNat (Int.lor CellType_snake d)).set
            (cellDir s.head d).toNat (Int.lor CellType_snake d)) pos = some CellType_empty ∧
          t = { s with
            board := ((s.board.set s.head.toNat (Int.lor CellType_snake d)).set
              (cellDir s.head d).toNat (Int.lor CellType_snake d)).set pos.toNat
              CellType_apple
            head := cellDir s.head d
            applesEaten := s.applesEaten + 1
            snakeSpeed := 850 + (s.applesEaten + 1) }) ∨
        (kindOf nc ≠ CellType_snake ∧ kindOf nc ≠ CellType_empty ∧
          kindOf nc ≠ CellType_apple ∧
          t = { s with
            board := (s.board.set s.head.toNat (Int.lor CellType_snake d)).set
              (cellDir s.head d).toNat (Int.lor CellType_snake d)
            head := cellDir s.head d })) := by
  have h1 := rd_bounds hh
  cases hn : rd s.board (cellDir s.head d) with
  | none =>
    exfalso
    unfold advance at ha
    rw [wr_eq _ _ h1.1 h1.2.1] at ha
    simp only [hn] at ha
    cases ha
  | some nc =>
    have h2 := rd_bounds hn
    refine ⟨nc, rfl, ?_⟩
    by_cases k1 : kindOf nc = CellType_snake
    · rw [advance_snake rnd hh hn k1] at ha
      cases ha
      exact Or.inl ⟨k1, rfl⟩
    by_cases k2 : kindOf nc = CellType_empty
    · cases htc : rd s.board s.tail with
      | none =>
        exfalso
        have e1 : ¬ CellType_empty = CellType_snake := by decide
        unfold advance at ha
        rw [wr_eq _ _ h1.1 h1.2.1] at ha
        simp only [hn] at ha
        rw [wr_eq _ _ h2.1 h2.2.1] at ha
        unfold kindOf at k2
        simp only [k2, e1, htc, if_true, if_false] at ha
        split at ha <;> cases ha
      | some tc =>
        rw [advance_empty rnd hh hn htc k2] at ha
        cases ha
        exact Or.inr (Or.inl ⟨k2, tc, rfl, rfl⟩)
    by_cases k3 : kindOf nc = CellType_apple
    · rw [advance_apple rnd hh hn k3] at ha
      cases hae : addInt s.applesEaten 1 with
      | none => simp [hae] at ha
      | some ae =>
        simp only [hae] at ha
        cases hsp : addInt 850 ae with
        | none => simp [hsp] at ha
        | some sp =>
          simp only [hsp] at ha
          obtain ⟨pos, hpos, ht⟩ := spawnApple_some ha
          have e1 := addInt_some hae
          have e2 := addInt_some hsp
          subst e1
          subst e2
          exact Or.inr (Or.inr (Or.inl ⟨k3, pos, hpos, ht⟩))
    · rw [advance_other rnd hh hn k1 k2 k3] at ha
      cases ha
      exact Or.inr (Or.inr (Or.inr ⟨k1, k2, k3, rfl⟩))

/-- The three ways `GameState_step` can return from a Running state: `Quit`, a
discarded same-axis input, or a running tick. -/
theorem step_running_inv {rnd : Samples} {input : Input} {s t : GameState}
    {rest : Samples} (hs : s.status = GameStatus.running)
    (h : GameState_step rnd input s = some (t, rest)) :
    ∃ hc, rd s.board s.head = some hc ∧
      (t = { s with status := GameStatus.exit } ∨ t = s ∨
        ∃ d, 0 ≤ d ∧ d ≤ 3 ∧ advance rnd s d = some (t, rest)) := by
  unfold GameState_step at h
  rw [hs] at h
  cases hh : rd s.board s.head with
  | none => simp [hh] at h
  | some hc =>
    refine ⟨hc, rfl, ?_⟩
    simp only [hh] at h
    have hb := dirOf_bounds hc
    have key : ∀ i : Input,
        (if (Int.land hc CellDirection_mask).tmod 2 ≠ (mapCellDirection i).tmod 2
          then advance rnd s (mapCellDirection i) else some (s, rnd)) = some (t, rest) →
        t = { s with status := GameStatus.exit } ∨ t = s ∨
          ∃ d, 0 ≤ d ∧ d ≤ 3 ∧ advance rnd s d = some (t, rest) := by
      intro i hi
      have hm := mapCellDirection_bounds i
      split at hi
      · exact Or.inr (Or.inr ⟨_, hm.1, hm.2, hi⟩)
      · cases hi
        exact Or.inr (Or.inl rfl)
    cases input with
    | quit =>
      cases h
      exact Or.inl rfl
    | none => exact Or.inr (Or.inr ⟨_, hb.1, hb.2, h⟩)
    | up => exact key Input.up h
    | left => exact key Input.left h
    | down => exact key Input.down h
    | right => exact key Input.right h

theorem cellOK_set {b : List Int} (h : ∀ v ∈ b, CellOK v) (i : Nat) {x : Int}
    (hx : CellOK x) : ∀ v ∈ b.set i x, CellOK v := by
  intro v hv
  rcases List.mem_or_eq_of_mem_set hv with h1 | h1
  · exact h v h1
  · rw [h1]; exact hx

theorem cellOK_snake {d : Int} (h0 : 0 ≤ d) (h3 : d ≤ 3) :
    CellOK (Int.lor CellType_snake d) := Or.inr (Or.inr ⟨d, h0, h3, rfl⟩)

theorem CellOK.kind {v : Int} (h : CellOK v) :
    kindOf v = CellType_empty ∨ kindOf v = CellType_apple ∨ kindOf v = CellType_snake := by
  rcases h with h | h | ⟨d, h0, h3, h⟩
  · rw [h]; exact Or.inl (by decide)
  · rw [h]; exact Or.inr (Or.inl (by decide))
  · rw [h]; exact Or.inr (Or.inr (kindOf_snake_lor h0 h3))

theorem mem_of_rd {b : List Int} {i v : Int} (h : rd b i = some v) : v ∈ b := by
  unfold rd at h
  split at h
  · cases h
  · exact List.getElem?_mem h

theorem initBoard_cellOK (a b : Nat) : ∀ v ∈ initBoard a b, CellOK v := by
  unfold initBoard
  have h11 : CellOK 11 := cellOK_snake (d := 3) (by decide) (by decide)
  apply cellOK_set _ _ h11
  apply cellOK_set _ _ h11
  apply cellOK_set _ _ h11
  apply cellOK_set _ _ (Or.inr (Or.inl rfl))
  intro v hv
  rw [List.mem_replicate] at hv
  exact Or.inl hv.2

theorem advance_cellOK {rnd : Samples} {s t : GameState} {rest : Samples} {hc d : Int}
    (hok : ∀ v ∈ s.board, CellOK v) (hd0 : 0 ≤ d) (hd3 : d ≤ 3)
    (hh : rd s.board s.head = some hc) (ha : advance rnd s d = some (t, rest)) :
    ∀ v ∈ t.board, CellOK v := by
  have hv := cellOK_snake hd0 hd3
  have h2 := cellOK_set (cellOK_set hok s.head.toNat hv) (cellDir s.head d).toNat hv
  obtain ⟨nc, _, h | h | h | h⟩ := advance_cases hh ha
  · rw [h.2]; exact h2
  · obtain ⟨_, tc, _, ht⟩ := h
    rw [ht]
    exact cellOK_set h2 _ (Or.inl rfl)
  · obtain ⟨_, pos, _, ht⟩ := h
    rw [ht]
    exact cellOK_set h2 _ (Or.inr (Or.inl rfl))
  · rw [h.2.2.2]; exact h2

theorem reachable_cellOK {s : GameState} (hr : Reachable s) : ∀ v ∈ s.board, CellOK v := by
  have hinit : ∀ (rnd : Samples) (gs t : GameState) (rest : Samples),
      GameState_init rnd gs = some (t, rest) → ∀ v ∈ t.board, CellOK v := by
    intro rnd gs t rest h
    cases rnd with
    | nil => simp [GameState_init, GameState_spawnApple] at h
    | cons q r =>
      obtain ⟨a, b⟩ := q
      rw [init_eq] at h
      cases h
      exact initBoard_cellOK a b
  induction hr with
  | init rnd gs s rest h => exact hinit rnd gs s rest h
  | step rnd input s t rest _ h ih =>
    cases hs : s.status with
    | exit =>
      unfold GameState_step at h
      rw [hs] at h
      cases h
      exact ih
    | over =>
      unfold GameState_step at h
      rw [hs] at h
      cases input with
      | quit => cases h; exact ih
      | none => cases h; exact ih
      | up => exact hinit _ _ _ _ h
      | left => exact hinit _ _ _ _ h
      | down => exact hinit _ _ _ _ h
      | right => exact hinit _ _ _ _ h
    | running =>
      obtain ⟨hc, hh, he | he | ⟨d, hd0, hd3, ha⟩⟩ := step_running_inv hs h
      · rw [he]; exact ih
      · rw [he]; exact ih
      · exact advance_cellOK ih hd0 hd3 hh ha

/-- C16. Cell well-formedness: in every state reachable from `GameState_init`
by `GameState_step`, every board cell is `CellType_empty`, `CellType_apple` or
`CellType_snake | d` with `d` in `0 .. 3`; hence the occupancy bits of a cell
are never `0x0C` but always Empty, Apple or SnakeBody, and the switch on
`nextCellType` never reaches its default branch. -/
theorem cells_wellformed (s : GameState) (hr : Reachable s) :
    (∀ v ∈ s.board, CellOK v) ∧
    ∀ i v, rd s.board i = some v →
      CellOK v ∧ kindOf v ≠ CellType_mask ∧
      (kindOf v = CellType_snake ∨ kindOf v = CellType_empty ∨ kindOf v = CellType_apple) := by
  have hok := reachable_cellOK hr
  refine ⟨hok, ?_⟩
  intro i v hv
  have h := hok v (mem_of_rd hv)
  refine ⟨h, ?_, ?_⟩
  · rcases h.kind with k | k | k <;> rw [k] <;> decide
  · rcases h.kind with k | k | k
    · exact Or.inr (Or.inl k)
    · exact Or.inr (Or.inr k)
    · exact Or.inl k

set_option maxRecDepth 100000 in
theorem cells_wellformed_witness :
    Reachable afterOneStep ∧ ∀ v ∈ afterOneStep.board, CellOK v :=
  have hr : Reachable afterOneStep :=
    Reachable.step [] Input.none (initState 5 5) afterOneStep []
      (Reachable.init [(5, 5)] overState (initState 5 5) [] (init_eq 5 5 [] overState))
      (by decide)
  ⟨hr, (cells_wellformed afterOneStep hr).1⟩

/-- A running tick changes the number of SnakeBody cells and `applesEaten` by
the same amount, and never decreases `applesEaten`. -/
theorem advance_count {rnd : Samples} {s t : GameState} {rest : Samples} {hc d : Int}
    {p : List Int} (hp : PathInv s.board s.tail s.head p) (hok : ∀ v ∈ s.board, CellOK v)
    (hd0 : 0 ≤ d) (hd3 : d ≤ 3) (hh : rd s.board s.head = some hc)
    (ha : advance rnd s d = some (t, rest)) :
    (countKind t.board CellType_snake : Int) - t.applesEaten =
      (countKind s.board CellType_snake : Int) - s.applesEaten ∧
    s.applesEaten ≤ t.applesEaten := by
  have hks := kindOf_snake_lor hd0 hd3
  have hhb := rd_bounds hh
  have hhk : kindOf hc = CellType_snake := (hp.snake _ _ hh).2 hp.head_mem
  have hc0 := hp.count
  obtain ⟨nc, hn, h | h | h | h⟩ := advance_cases hh ha
  · obtain ⟨k1, ht⟩ := h
    subst ht
    dsimp only
    obtain ⟨x, hx, hxk⟩ : ∃ x, rd (s.board.set s.head.toNat (Int.lor CellType_snake d))
        (cellDir s.head d) = some x ∧ kindOf x = CellType_snake := by
      by_cases e : cellDir s.head d = s.head
      · rw [e, rd_set_self _ hp.size hhb.1 hhb.2.1]
        exact ⟨_, rfl, hks⟩
      · rw [rd_set_ne _ _ hhb.1 (Ne.symm e)]
        exact ⟨nc, hn, k1⟩
    have c1 := countKind_set (Int.lor CellType_snake d) CellType_snake hh
    have c2 := countKind_set (Int.lor CellType_snake d) CellType_snake hx
    simp only [hks, hhk, hxk, if_true, eq_self_iff_true] at c1 c2
    constructor
    · omega
    · exact le_refl _
  · obtain ⟨k2, tc, _, ht⟩ := h
    have k1 : kindOf nc ≠ CellType_snake := by rw [k2]; decide
    have hg := hp.grow hd0 hd3 hn k1
    have htb := hp.inside _ hp.tail_mem
    obtain ⟨y, hy⟩ := rd_eq_some hg.size htb.1 htb.2
    have h3 : 3 ≤ (p ++ [cellDir s.head d]).length := by
      have := hp.two_le
      simp only [List.length_append, List.length_singleton]
      omega
    have c := (hg.shrink h3 hy).count
    simp only [List.length_tail, List.length_append, List.length_singleton] at c
    subst ht
    dsimp only
    constructor
    · omega
    · exact le_refl _
  · obtain ⟨k3, pos, hpos, ht⟩ := h
    have k1 : kindOf nc ≠ CellType_snake := by rw [k3]; decide
    have hg := hp.grow hd0 hd3 hn k1
    have c := (hg.apple hpos).count
    simp only [List.length_append, List.length_singleton] at c
    subst ht
    dsimp only
    constructor
    · omega
    · omega
  · exfalso
    obtain ⟨k1, k2, k3, _⟩ := h
    rcases (hok nc (mem_of_rd hn)).kind with k | k | k
    · exact k2 k
    · exact k3 k
    · exact k1 k

theorem reachable_count {s : GameState} (hr : Reachable s) :
    (countKind s.board CellType_snake : Int) = 3 + s.applesEaten ∧ 0 ≤ s.applesEaten := by
  have hinit : ∀ (rnd : Samples) (gs t : GameState) (rest : Samples),
      GameState_init rnd gs = some (t, rest) →
      (countKind t.board CellType_snake : Int) = 3 + t.applesEaten ∧ 0 ≤ t.applesEaten := by
    intro rnd gs t rest h
    cases rnd with
    | nil => simp [GameState_init, GameState_spawnApple] at h
    | cons q r =>
      obtain ⟨a, b⟩ := q
      rw [init_eq] at h
      cases h
      have := countKind_initBoard a b
      simp only [initState, this]
      exact ⟨by norm_num, le_refl _⟩
  induction hr with
  | init rnd gs s rest h => exact hinit rnd gs s rest h
  | step rnd input s t rest hsr h ih =>
    cases hs : s.status with
    | exit =>
      unfold GameState_step at h
      rw [hs] at h
      cases h
      exact ih
    | over =>
      unfold GameState_step at h
      rw [hs] at h
      cases input with
      | quit => cases h; exact ih
      | none => cases h; exact ih
      | up => exact hinit _ _ _ _ h
      | left => exact hinit _ _ _ _ h
      | down => exact hinit _ _ _ _ h
      | right => exact hinit _ _ _ _ h
    | running =>
      obtain ⟨hc, hh, he | he | ⟨d, hd0, hd3, ha⟩⟩ := step_running_inv hs h
      · rw [he]; exact ih
      · rw [he]; exact ih
      · obtain ⟨p, hp⟩ := reachable_inv hsr hs
        have hc := advance_count hp (reachable_cellOK hsr) hd0 hd3 hh ha
        constructor
        · omega
        · omega

set_option maxRecDepth 100000 in
theorem afterOneStep_reachable : Reachable afterOneStep :=
  Reachable.step [] Input.none (initState 5 5) afterOneStep []
    (Reachable.init [(5, 5)] overState (initState 5 5) [] (init_eq 5 5 [] overState))
    (by decide)

/-- C20. Length bookkeeping: in every state reachable from `GameState_init` by
`GameState_step`, whatever its status, the number of cells of kind SnakeBody
equals `3 + applesEaten`, and is at least 3. -/
theorem length_bookkeeping (s : GameState) (hr : Reachable s) :
    (countKind s.board CellType_snake : Int) = 3 + s.applesEaten ∧
    3 ≤ countKind s.board CellType_snake := by
  have h := reachable_count hr
  refine ⟨h.1, ?_⟩
  omega

theorem length_bookkeeping_witness :
    Reachable afterOneStep ∧
    (countKind afterOneStep.board CellType_snake : Int) = 3 + afterOneStep.applesEaten :=
  ⟨afterOneStep_reachable, (length_bookkeeping afterOneStep afterOneStep_reachable).1⟩

theorem pathCell_inj {i j : Nat} (h : pathCell i = pathCell j) : i = j := by
  unfold pathCell at h
  split_ifs at h <;> omega

theorem pathCell_lt {j : Nat} (h : j < 399) : pathCell j < 400 ∧ pathCell j ≠ 380 := by
  unfold pathCell
  split_ifs <;> omega

theorem fullPath_nodup : fullPath.Nodup := by
  unfold fullPath
  apply List.Nodup.map_on _ (List.nodup_range 399)
  intro x _ y _ h
  exact pathCell_inj (Int.ofNat_inj.1 h)

theorem rd_fullBoard {n : Nat} (h : n < 400) : rd fullBoard (n : Int) = some (fullCell n) := by
  unfold rd fullBoard
  rw [Board_size_eq, if_neg (by omega), Int.toNat_ofNat, List.getElem?_map,
    List.getElem?_range h]
  rfl

theorem kindOf_fullCell {n : Nat} (h : n ≠ 380) : kindOf (fullCell n) = CellType_snake := by
  unfold fullCell
  rw [if_neg h]
  split_ifs <;> decide

set_option maxRecDepth 1000000 in
theorem walk_fullBoard : walk fullBoard 399 0 = fullPath := by decide!

/-- On a board without a cell equal to `CellType_empty` the retry loop of apple
placement finds no cell, whatever the samples. -/
theorem spawnApple_full {gs : GameState} (hfull : ∀ v ∈ gs.board, v ≠ CellType_empty)
    (rnd : Samples) : GameState_spawnApple rnd gs = Option.none := by
  induction rnd with
  | nil => rfl
  | cons p r ih =>
    obtain ⟨a, c⟩ := p
    rw [spawnApple_cons]
    cases hv : rd gs.board (applePos a c) with
    | none => rfl
    | some v =>
      simp only []
      rw [if_pos (hfull v (mem_of_rd hv))]
      exact ih

theorem fullCell_ne_empty (n : Nat) : fullCell n ≠ CellType_empty := by
  unfold fullCell
  split_ifs <;> decide

set_option maxRecDepth 1000000 in
/-- C15 at the failing input. The Running state `fullState` has 399 SnakeBody
cells forming one path without repetition from the tail to the head, and the
head faces the only other cell, an Apple; `GameState_step` on `None` then fills
the board, and apple placement finds no cell for any samples: the step returns
nothing. -/
theorem full_board_hang :
    fullState.status = GameStatus.running ∧
    countKind fullState.board CellType_snake = 399 ∧
    (walk fullState.board 399 fullState.tail).length = 399 ∧
    (walk fullState.board 399 fullState.tail).Nodup ∧
    (walk fullState.board 399 fullState.tail).getLast? = some fullState.head ∧
    (∀ c ∈ walk fullState.board 399 fullState.tail,
      (rd fullState.board c).map kindOf = some CellType_snake) ∧
    rd fullState.board (cellDir fullState.head 1) = some CellType_apple ∧
    ∀ rnd : Samples, GameState_step rnd Input.none fullState = Option.none := by
  have hh : rd fullState.board fullState.head = some 9 := rd_fullBoard (n := 381) (by decide)
  have hn : rd fullState.board (cellDir fullState.head 1) = some CellType_apple := by
    have e : cellDir fullState.head 1 = ((380 : Nat) : Int) := by decide
    rw [e]
    exact rd_fullBoard (n := 380) (by decide)
  have hw : walk fullState.board 399 fullState.tail = fullPath := walk_fullBoard
  rw [hw]
  refine ⟨rfl, by decide!, by simp [fullPath], fullPath_nodup, by decide!, ?_, hn, ?_⟩
  · intro c hc
    unfold fullPath at hc
    rw [List.mem_map] at hc
    obtain ⟨j, hj, rfl⟩ := hc
    have hj2 := pathCell_lt (List.mem_range.1 hj)
    show (rd fullBoard _).map kindOf = _
    rw [rd_fullBoard hj2.1, Option.map_some', kindOf_fullCell hj2.2]
  · intro rnd
    have ha : Advances Input.none 9 1 := Or.inl ⟨rfl, by decide⟩
    rw [step_advance rnd rfl hh ha, advance_apple rnd hh hn (by decide)]
    have e1 : addInt fullState.applesEaten 1 = some 397 := by decide
    have e2 : addInt 850 397 = some 1247 := by decide
    simp only [e1, e2]
    apply spawnApple_full
    intro v hv
    dsimp only at hv
    have h9 : (9 : Int) ≠ CellType_empty := by decide
    rcases List.mem_or_eq_of_mem_set hv with h | h
    · rcases List.mem_or_eq_of_mem_set h with h | h
      · change v ∈ fullBoard at h
        unfold fullBoard at h
        rw [List.mem_map] at h
        obtain ⟨n, _, rfl⟩ := h
        exact fullCell_ne_empty n
      · rw [h]; exact h9
    · rw [h]; exact h9

end Snake
